import Mathlib

/-!
# run-merged: a shallow embedding of `run-merged.c`

The C program builds a merged root file system out of a base tree and a list
of squashfs images and starts a shell in it.  This file embeds the functions
of `run-merged.c` as executable Lean definitions and proves properties of them.

Conventions of the embedding.

* A C string is a `String`; a `char *` that may be `NULL` is an `Option String`.
* The read-only side of the file system (the layers, the host name space) is a
  record `SrcFS` of the three system calls the merge reads with: `lstat`,
  `opendir`/`readdir` and `readlink`.
* The writable side (the scratch tmpfs the merged tree is built in) is the
  `dest` table of a `World`: one row per path the program created.  The calls
  the program issues are appended to the `log` of the same `World`.
* `fatal`/`fatal_errno` end the process: a function that can reach them returns
  a `Res`, whose `fatal` constructor carries the message and the world at the
  moment of the exit.
* A `chmod` changes no row and no table of the read-only side: it is logged
  with the file it reached, and the permission bits a file has now are read off
  the log (`World.restat`, `World.modeNow`, `World.stat`).
* `malloc` never fails (the `oom` exits are not modelled).
* `merge_dirs` is recursive on what the file system holds; its model takes a
  recursion budget and answers `Res.nofuel` when the budget is used up.
-/

namespace RunMerged

/-! ## `st_mode` and the `S_IS*` macros of `<sys/stat.h>` (Linux values) -/

def S_IFMT : Nat := 0o170000
def S_IFSOCK : Nat := 0o140000
def S_IFLNK : Nat := 0o120000
def S_IFREG : Nat := 0o100000
def S_IFBLK : Nat := 0o060000
def S_IFDIR : Nat := 0o040000
def S_IFCHR : Nat := 0o020000
def S_IFIFO : Nat := 0o010000

def S_ISREG (m : Nat) : Bool := m &&& S_IFMT == S_IFREG
def S_ISDIR (m : Nat) : Bool := m &&& S_IFMT == S_IFDIR
def S_ISLNK (m : Nat) : Bool := m &&& S_IFMT == S_IFLNK
def S_ISCHR (m : Nat) : Bool := m &&& S_IFMT == S_IFCHR
def S_ISBLK (m : Nat) : Bool := m &&& S_IFMT == S_IFBLK
def S_ISFIFO (m : Nat) : Bool := m &&& S_IFMT == S_IFIFO
def S_ISSOCK (m : Nat) : Bool := m &&& S_IFMT == S_IFSOCK

/-- The fields of `struct stat` the program reads. -/
structure Stat where
  st_mode : Nat
  st_uid : Nat
  st_gid : Nat
deriving DecidableEq, Repr

/-! ## Mount flags of `<sys/mount.h>` -/

def MS_RDONLY : Nat := 1
def MS_NOSUID : Nat := 2
def MS_NODEV : Nat := 4
def MS_NOATIME : Nat := 1024
def MS_BIND : Nat := 4096
def MS_REC : Nat := 16384
def MS_PRIVATE : Nat := 1 <<< 18
def MS_SLAVE : Nat := 1 <<< 19
def MS_MGC_VAL : Nat := 0xC0ED0000

/-- The flags of the bind mounts of `bind_file`. -/
def bindFlags : Nat :=
  MS_MGC_VAL ||| MS_BIND ||| MS_NODEV ||| MS_NOSUID ||| MS_RDONLY ||| MS_NOATIME

/-! ## The read-only file system -/

inductive DKind where
  | file
  | dir
  | symlink
deriving DecidableEq, Repr

/-- One created path of the scratch file system.  `mode` is the mode argument
the entry was created with (`creat`, `mkdir`; the process umask is taken to be
0), a symbolic link has mode 0777 as Linux gives every link; a later `chmod`
does not rewrite the row, it is kept in the log (see `World.modeNow`);
`target` is the text of a symbolic link; `bound` is the source a bind mount put
on top. -/
structure DEntry where
  kind : DKind
  mode : Nat
  uid : Nat
  gid : Nat
  target : Option String
  bound : Option String
deriving DecidableEq, Repr

/-- The system calls the merge reads the layers with, as the file system is
when the merge starts.  `lstat p = none` is `lstat (p, &st) < 0`;
`readdir p = none` is `opendir (p) == NULL`, otherwise the list holds the
`d_name`s in the order `readdir` returns them; `readlink p` is the full text of
the link (`none`: `readlink < 0`).  `follow rows p` is the path lookup of the
kernel for a call that follows the symbolic link at the scratch path `p`, when
the scratch file system holds `rows`: the path of the file or directory the
walk ends at, `none` when the call fails (a dangling link, a loop, a read-only
file system). -/
structure SrcFS where
  lstat : String → Option Stat
  readdir : String → Option (List String)
  readlink : String → Option String
  follow : List (String × DEntry) → String → Option String

/-! ## The writable file system and the log -/

/-- The file a `chmod` call changed: a file or directory of the scratch file
system that has no bind mount on it, or a file outside the scratch file system
(of a layer, reached through a bind mount or not, or of the host), each named
by its path. -/
inductive Inode where
  | scratch (path : String)
  | outside (path : String)
deriving DecidableEq, Repr

/-- What the program does that is not a change of the `dest` table:
`prctl_no_new_privs` is `prctl (PR_SET_NO_NEW_PRIVS, 1)`,
`prctl_securebits_noroot` is
`prctl (PR_SET_SECUREBITS, SECBIT_NOROOT | SECBIT_NOROOT_LOCKED)`,
`chmod path mode inode` is the call `chmod (path, mode)` and the file whose
permission bits it set (`none`: the call failed). -/
inductive Event where
  | warning (msg : String)
  | mount (source : Option String) (target : String) (fstype : Option String) (flags : Nat)
  | prctl_no_new_privs
  | prctl_securebits_noroot
  | chmod (path : String) (mode : Nat) (inode : Option Inode)
  | other (call : String)
deriving DecidableEq, Repr

structure World where
  dest : List (String × DEntry)
  log : List Event
deriving DecidableEq, Repr

/-- Outcome of a piece of the program: it returned a value, it called `fatal`
(message, world at `exit (1)`), or the recursion budget of the model ran out
(world at that moment). -/
inductive Res (α : Type) where
  | ok (a : α) (w : World)
  | fatal (msg : String) (w : World)
  | nofuel (w : World)
deriving DecidableEq, Repr

/-- The world an outcome ends in. -/
def Res.world {α : Type} : Res α → World
  | Res.ok _ w => w
  | Res.fatal _ w => w
  | Res.nofuel w => w

namespace World

def empty : World := ⟨[], []⟩

/-- The call `lstat (path, &st)` on the scratch file system: the created row. -/
def lstat (w : World) (path : String) : Option DEntry :=
  (w.dest.find? (fun r => r.1 == path)).map (fun r => r.2)

def emit (w : World) (e : Event) : World := { w with log := w.log ++ [e] }

/-- Adds a row for a path that has none (`none`: the path exists, `EEXIST`). -/
def create (w : World) (path : String) (e : DEntry) : Option World :=
  match w.lstat path with
  | some _ => none
  | none => some { w with dest := w.dest ++ [(path, e)] }

/-- The call `creat (path, mode)` followed by `close`. -/
def creat (w : World) (path : String) (mode : Nat) : Option World :=
  match w.lstat path with
  | some e => if e.kind = DKind.file then some w else none
  | none => some { w with dest := w.dest ++ [(path, ⟨DKind.file, mode, 0, 0, none, none⟩)] }

def mkdir (w : World) (path : String) (mode : Nat) : Option World :=
  w.create path ⟨DKind.dir, mode, 0, 0, none, none⟩

def symlink (w : World) (target path : String) : Option World :=
  w.create path ⟨DKind.symlink, 0o777, 0, 0, some target, none⟩

def setOwner (uid gid : Nat) (path : String) (r : String × DEntry) : String × DEntry :=
  if r.1 == path then (r.1, { r.2 with uid := uid, gid := gid }) else r

/-- The call `lchown (path, uid, gid)` (`none`: no such path). -/
def lchown (w : World) (path : String) (uid gid : Nat) : Option World :=
  match w.lstat path with
  | none => none
  | some _ => some { w with dest := w.dest.map (setOwner uid gid path) }

def setBound (src path : String) (r : String × DEntry) : String × DEntry :=
  if r.1 == path then (r.1, { r.2 with bound := some src }) else r

/-- The call `mount (src, path, NULL, flags | MS_BIND, NULL)` (`none`: no such
mount point). -/
def bindMount (w : World) (src path : String) (flags : Nat) : Option World :=
  match w.lstat path with
  | none => none
  | some _ =>
    some { dest := w.dest.map (setBound src path),
           log := w.log ++ [Event.mount (some src) path none flags] }

/-- The permission bits the last successful `chmod` on the file gave it. -/
def chmodOf (w : World) (i : Inode) : Option Nat :=
  w.log.foldl (fun acc e =>
    match e with
    | Event.chmod _ m (some j) => if j = i then some (m &&& 0o7777) else acc
    | _ => acc) none

/-- What `lstat` returns now for a file outside the scratch file system for
which it returned `st` when the merge started: the permission bits are those of
the last `chmod` that reached the file; the mode of a symbolic link never
changes, `chmod` follows links. -/
def restat (w : World) (p : String) (st : Stat) : Stat :=
  if S_ISLNK st.st_mode then st
  else
    match w.chmodOf (Inode.outside p) with
    | some m => { st with st_mode := (st.st_mode &&& S_IFMT) ||| m }
    | none => st

/-- The file a `chmod` on the symbolic link at the scratch path `path` changes:
the kernel follows the link; a row with a bind mount on it stands for the file
that was bound. -/
def landing (fs : SrcFS) (w : World) (path : String) : Option Inode :=
  match fs.follow w.dest path with
  | none => none
  | some t =>
    match w.lstat t with
    | some e =>
      if e.kind = DKind.symlink then none
      else
        match e.bound with
        | some src => some (Inode.outside src)
        | none => some (Inode.scratch t)
    | none => some (Inode.outside t)

/-- The call `chmod (path, mode)` on a symbolic link of the scratch file
system; the return value is not used by the program. -/
def chmod (fs : SrcFS) (w : World) (path : String) (mode : Nat) : World :=
  w.emit (Event.chmod path mode (w.landing fs path))

/-- The call `lstat (p, &st)` on a path of a layer or of the host, now. -/
def lstatSrc (fs : SrcFS) (w : World) (p : String) : Option Stat :=
  (fs.lstat p).map (w.restat p)

/-- The permission bits of the scratch path `q` now: those of the last `chmod`
that reached it, else those it was created with. -/
def modeNow (w : World) (q : String) (e : DEntry) : Nat :=
  if e.kind = DKind.symlink then e.mode
  else (w.chmodOf (Inode.scratch q)).getD e.mode

/-- The type bits of `st_mode` for a row of the scratch file system. -/
def typeBits : DKind → Nat
  | DKind.file => S_IFREG
  | DKind.dir => S_IFDIR
  | DKind.symlink => S_IFLNK

/-- The call `lstat (q, &st)` on a path of the merged tree, as a process sees
it: behind a bind mount the file that was bound, else the row itself. -/
def stat (fs : SrcFS) (w : World) (q : String) : Option Stat :=
  match w.lstat q with
  | none => none
  | some e =>
    match e.bound with
    | some src => w.lstatSrc fs src
    | none => some ⟨typeBits e.kind ||| w.modeNow q e, e.uid, e.gid⟩

end World

/-! ## String helpers and the merge engine -/

/-- The function `strconcat (s1, s2, s3)`: the concatenation of the arguments
that are not `NULL`. -/
def strconcat (s1 s2 s3 : Option String) : String :=
  let res := ""
  let res := match s1 with
    | some s => res ++ s
    | none => res
  let res := match s2 with
    | some s => res ++ s
    | none => res
  let res := match s3 with
    | some s => res ++ s
    | none => res
  res

inductive Conflict where
  | NO_CONFLICTS
  | DIR_CONFLICT
  | NON_DIR_CONFLICT
deriving DecidableEq, Repr

open Conflict

/-- The function `get_subdir (dir, filename)`: `dir` is passed to `strconcat`
as it is, `NULL` included.  Of the `lstat` result only the file type is read,
which no `chmod` changes: the file system as it was at the start answers. -/
def get_subdir (fs : SrcFS) (dir : Option String) (filename : String) : Option String :=
  let path := strconcat dir (some "/") (some filename)
  match fs.lstat path with
  | some st => if S_ISDIR st.st_mode then some path else none
  | none => none

/-- The body of the `for` loop of `has_conflict`, from index `i` on, over the
rest of `dirs`; the state is the pair `(conflict, all_dirs)`.  Of the `lstat`
result only the file type is read, which no `chmod` changes: the file system
as it was at the start answers. -/
def has_conflict_loop (fs : SrcFS) (filename : String) (except : Nat) :
    Nat → List (Option String) → Bool × Bool → Bool × Bool
  | _, [], acc => acc
  | i, d :: rest, acc =>
    match d with
    | none => has_conflict_loop fs filename except (i + 1) rest acc
    | some di =>
      if i = except then has_conflict_loop fs filename except (i + 1) rest acc
      else
        let path := strconcat (some di) (some "/") (some filename)
        match fs.lstat path with
        | none => has_conflict_loop fs filename except (i + 1) rest acc
        | some st =>
          has_conflict_loop fs filename except (i + 1) rest
            (true, if !S_ISDIR st.st_mode then false else acc.2)

/-- The function `has_conflict (dirs, n_dirs, filename, except)`. -/
def has_conflict (fs : SrcFS) (dirs : List (Option String)) (filename : String)
    (except : Nat) : Conflict :=
  let r := has_conflict_loop fs filename except 0 dirs (false, true)
  if !r.1 then NO_CONFLICTS
  else if r.2 then DIR_CONFLICT
  else NON_DIR_CONFLICT

/-- A call on the scratch file system whose failure is fatal: `msg` is the
message of the exit, `k` the code after the call. -/
def orFatal {α : Type} (call : Option World) (msg : String) (w : World)
    (k : World → Res α) : Res α :=
  match call with
  | none => Res.fatal msg w
  | some w1 => k w1

/-- The function `bind_file (src_path, dest_path, st)`. -/
def bind_file (fs : SrcFS) (src_path dest_path : String) (st : Stat) (w : World) : Res Unit :=
  if S_ISREG st.st_mode then
    orFatal (w.creat dest_path (st.st_mode &&& 0o777)) "create dest" w (fun w1 =>
    orFatal (w1.lchown dest_path st.st_uid st.st_gid) "lchown" w1 (fun w2 =>
    orFatal (w2.bindMount src_path dest_path bindFlags) ("bind file " ++ src_path) w2 (fun w3 =>
    Res.ok () w3)))
  else if S_ISDIR st.st_mode then
    orFatal (w.mkdir dest_path (st.st_mode &&& 0o777)) "create dest dir" w (fun w1 =>
    orFatal (w1.lchown dest_path st.st_uid st.st_gid) "lchown" w1 (fun w2 =>
    orFatal (w2.bindMount src_path dest_path bindFlags) ("bind dir " ++ src_path) w2 (fun w3 =>
    Res.ok () w3)))
  else if S_ISLNK st.st_mode then
    match fs.readlink src_path with
    | none => Res.fatal "Could not read link" w
    | some buf =>
      if buf.utf8ByteSize ≥ 1024 then Res.fatal "link to long" w
      else
        -- chmod(2) follows the link it is given and changes the file the link
        -- leads to, if any; the result of the call is not looked at
        orFatal (w.symlink buf dest_path) "symlink" w (fun w1 =>
        orFatal ((w1.chmod fs dest_path (st.st_mode &&& 0o777)).lchown dest_path
            st.st_uid st.st_gid) "lchown"
          (w1.chmod fs dest_path (st.st_mode &&& 0o777)) (fun w3 =>
        Res.ok () w3))
  else Res.fatal ("Uknown file type " ++ src_path ++ "\n") w

/-- One turn of the `while ((dirent = readdir (dir)) != NULL)` loop of
`merge_dirs`, for the entry `d_name` of layer `i` (whose path is `di`);
`recur` is the recursive call `merge_dirs (dest_path, subdirs, n_dirs)`. -/
def merge_entry (fs : SrcFS) (recur : String → List (Option String) → World → Res Unit)
    (root : String) (dirs : List (Option String)) (i : Nat) (di : String)
    (d_name : String) (w : World) : Res Unit :=
  let src_path := strconcat (some di) (some "/") (some d_name)
  if d_name = "." ∨ d_name = ".." then Res.ok () w
  else
    let dest_path := strconcat (some root) (some "/") (some d_name)
    match w.lstat dest_path with
    | some _ => Res.ok () w
    | none =>
      match w.lstatSrc fs src_path with
      | none => Res.ok () w
      | some st =>
        if S_ISCHR st.st_mode || S_ISBLK st.st_mode || S_ISFIFO st.st_mode
            || S_ISSOCK st.st_mode then
          Res.ok () (w.emit (Event.warning ("WARNING: ignoring special file " ++ src_path ++ "\n")))
        else
          match has_conflict fs dirs d_name i with
          | NO_CONFLICTS => bind_file fs src_path dest_path st w
          | DIR_CONFLICT =>
            orFatal (w.mkdir dest_path (st.st_mode &&& 0o777)) "create merged dir" w (fun w1 =>
            orFatal (w1.lchown dest_path st.st_uid st.st_gid) "lchown" w1 (fun w2 =>
            recur dest_path (dirs.map (fun dj => get_subdir fs dj d_name)) w2))
          | NON_DIR_CONFLICT => Res.fatal "Filename conflicts, refusing to mount\n" w

/-- The `while` loop of `merge_dirs` over the entries `readdir` returns. -/
def merge_entries (fs : SrcFS) (recur : String → List (Option String) → World → Res Unit)
    (root : String) (dirs : List (Option String)) (i : Nat) (di : String) :
    List String → World → Res Unit
  | [], w => Res.ok () w
  | d_name :: rest, w =>
    match merge_entry fs recur root dirs i di d_name w with
    | Res.ok () w1 => merge_entries fs recur root dirs i di rest w1
    | r => r

/-- The `for (i = 0; i < n_dirs; i++)` loop of `merge_dirs`, from index `i`
on; `todo` is `dirs[i..]`. -/
def merge_layers (fs : SrcFS) (recur : String → List (Option String) → World → Res Unit)
    (root : String) (dirs : List (Option String)) :
    Nat → List (Option String) → World → Res Unit
  | _, [], w => Res.ok () w
  | i, d :: todo, w =>
    match d with
    | none => merge_layers fs recur root dirs (i + 1) todo w
    | some di =>
      match fs.readdir di with
      | none => merge_layers fs recur root dirs (i + 1) todo w
      | some names =>
        match merge_entries fs recur root dirs i di names w with
        | Res.ok () w1 => merge_layers fs recur root dirs (i + 1) todo w1
        | r => r

/-- The function `merge_dirs (root, dirs, n_dirs)`.  The first argument bounds
the depth of the recursion: `fuel + 1` allows `fuel` nested calls. -/
def merge_dirs (fs : SrcFS) : Nat → String → List (Option String) → World → Res Unit
  | 0, _, _, w => Res.nofuel w
  | fuel + 1, root, dirs, w =>
    merge_layers fs (merge_dirs fs fuel) root dirs 0 dirs w

/-! ## Credentials and the permission probes -/

/-- The part of the process state the probes touch. -/
structure Proc where
  ruid : Nat
  fsuid : Nat
  errno : Int
  cwd : String
deriving DecidableEq, Repr

/-- The decisions of the kernel the model does not compute.  A permission check
sees the whole credential state of the moment of the call; `some e` is a
failure with `errno = e`. -/
structure Kernel where
  chdir : Proc → String → Option Int
  access : Proc → String → Int → Option Int

/-- The call `setfsuid (uid)`; the process holds `CAP_SETUID`, the call takes
effect and leaves `errno` alone. -/
def setfsuid (uid : Nat) (p : Proc) : Proc := { p with fsuid := uid }

/-- The call `chdir (path)`: return value and new process state. -/
def sys_chdir (k : Kernel) (path : String) (p : Proc) : Int × Proc :=
  match k.chdir p path with
  | none => (0, { p with cwd := path })
  | some e => (-1, { p with errno := e })

/-- The call `access (path, mode)`: return value and new process state. -/
def sys_access (k : Kernel) (path : String) (mode : Int) (p : Proc) : Int × Proc :=
  match k.access p path mode with
  | none => (0, p)
  | some e => (-1, { p with errno := e })

/-- The function `fsuid_chdir (uid, path)`. -/
def fsuid_chdir (k : Kernel) (uid : Nat) (path : String) (p : Proc) : Int × Proc :=
  let p := setfsuid uid p
  let (ret, p) := sys_chdir k path p
  let errsv := p.errno
  let p := setfsuid 0 p
  let p := { p with errno := errsv }
  (ret, p)

/-- The function `fsuid_access (uid, path, mode)`. -/
def fsuid_access (k : Kernel) (uid : Nat) (path : String) (mode : Int) (p : Proc) :
    Int × Proc :=
  let p := setfsuid uid p
  let (ret, p) := sys_access k path mode p
  let errsv := p.errno
  let p := setfsuid 0 p
  let p := { p with errno := errsv }
  (ret, p)

/-! ## The directory-tree builder -/

def EEXIST : Int := 17
def ENOENT : Int := 2
def ENOTDIR : Int := 20
def EINVAL : Int := 22

/-- Path lookup ignores repeated and trailing slashes. -/
def normChars : List Char → List Char
  | [] => []
  | c :: rest =>
    if c = '/' then
      match normChars rest with
      | [] => []
      | d :: r => if d = '/' then d :: r else c :: d :: r
    else c :: normChars rest

def normPath (path : String) : String := String.mk (normChars path.toList)

/-- The directory a normalised path lies in. -/
def parentPath (path : String) : String :=
  String.mk ((path.toList.reverse.dropWhile (fun c => c != '/')).drop 1).reverse

/-- The call `mkdir (path, mode)` with its `errno`: `EEXIST` when the path is
there, `ENOENT`/`ENOTDIR` when the directory it lies in is missing or is not a
directory. -/
def World.mkdirE (w : World) (path : String) (mode : Nat) : Except Int World :=
  let p := normPath path
  match w.lstat p with
  | some _ => Except.error EEXIST
  | none =>
    match w.lstat (parentPath p) with
    | none => Except.error ENOENT
    | some e =>
      if e.kind = DKind.dir then
        Except.ok { w with dest := w.dest ++ [(p, ⟨DKind.dir, mode, 0, 0, none, none⟩)] }
      else Except.error ENOTDIR

/-- The `do ... while (slash != NULL)` loop of `make_fs_dir`.  `acc` is the
text of `full` before the scanning position, the list is the text from the
scanning position on: a `/` found there (`strchr`) ends a segment, the end of
the text is `slash == NULL`. -/
def make_fs_dir_loop (mode : Nat) : List Char → List Char → World → Res Unit
  | acc, [], w =>
    match w.mkdirE (String.mk acc) mode with
    | Except.ok w1 => Res.ok () w1
    | Except.error e =>
      if e ≠ EEXIST then Res.fatal ("mkdir_all " ++ String.mk acc) w else Res.ok () w
  | acc, c :: cs, w =>
    if c = '/' then
      match w.mkdirE (String.mk acc) mode with
      | Except.ok w1 => make_fs_dir_loop mode (acc ++ [c]) cs w1
      | Except.error e =>
        if e ≠ EEXIST then Res.fatal ("mkdir_all " ++ String.mk acc) w
        else make_fs_dir_loop mode (acc ++ [c]) cs w
    else make_fs_dir_loop mode (acc ++ [c]) cs w

/-- The text of `dir` after `while (*dir == '/') dir++`. -/
def skipSlashes (dir : String) : String :=
  String.mk (dir.toList.dropWhile (fun c => c == '/'))

/-- The function `make_fs_dir (root, dir, mode)`; the value is `full`. -/
def make_fs_dir (root dir : String) (mode : Nat) (w : World) : Res String :=
  let dir := skipSlashes dir
  let full := strconcat (some root) (some "/") (some dir)
  match make_fs_dir_loop mode (root.toList ++ ['/']) dir.toList w with
  | Res.ok _ w1 => Res.ok full w1
  | Res.fatal msg w1 => Res.fatal msg w1
  | Res.nofuel w1 => Res.nofuel w1

/-! ## The image mounter, the base environment and `main` -/

/-- Sequencing of two pieces of the program: the second runs when the first
returned. -/
def Res.andThen {α β : Type} (r : Res α) (f : α → World → Res β) : Res β :=
  match r with
  | Res.ok a w => f a w
  | Res.fatal msg w => Res.fatal msg w
  | Res.nofuel w => Res.nofuel w

/-- The outcomes of the system calls of `main` the model does not compute.
An `Option Int` is `none` for success and `some e` for a failure with
`errno = e`; a `Bool` is `true` for success. -/
structure Sys where
  fs : SrcFS
  kernel : Kernel
  mkdtemp : Option String
  getresgid : Option (Nat × Nat × Nat)
  getresuid : Option (Nat × Nat × Nat)
  clone : Int
  prctl_no_new_privs : Option Int
  prctl_securebits : Option Int
  mount : Option String → String → Option String → Nat → Bool
  getcwd : String
  getenv_HOME : Option String
  open_loop_control : Bool
  loop_ctl_get_free : String → Option Nat
  loop_is_blk : Nat → Bool
  open_loop : Nat → Bool
  open_image : String → Bool
  loop_set_fd : String → Bool
  loop_set_status : String → Bool
  chroot : Bool
  setgid : Bool
  setuid : Bool
  execl : Bool
  waitpid : Option (Option Int)
  fuel : Nat

/-- A call `mount (source, target, fstype, flags, NULL)` that is not a bind
mount of the merge: it is logged, `sys.mount` says whether it succeeds. -/
def sys_mount (sys : Sys) (source : Option String) (target : String)
    (fstype : Option String) (flags : Nat) (w : World) : Bool × World :=
  (sys.mount source target fstype flags, w.emit (Event.mount source target fstype flags))

/-- The function `attach_loop_device (filename, &loop_fd)`; the value is
`loopname`. -/
def attach_loop_device (sys : Sys) (filename : String) (w : World) : Res String :=
  let w := w.emit (Event.other "open /dev/loop-control")
  if !sys.open_loop_control then Res.fatal "open /dev/loop-control" w
  else
    let w := w.emit (Event.other "LOOP_CTL_GET_FREE")
    match sys.loop_ctl_get_free filename with
    | none => Res.fatal "LOOP_CTL_GET_FREE" w
    | some i =>
      let loopname := "/dev/loop" ++ toString i
      if !sys.loop_is_blk i then Res.fatal "loopback not block device" w
      else if !sys.open_loop i then Res.fatal "open loop device" w
      else if !sys.open_image filename then Res.fatal "open image" w
      else
        let w := w.emit (Event.other "LOOP_SET_FD")
        if !sys.loop_set_fd filename then Res.fatal "LOOP_SET_FD" w
        else
          let w := w.emit (Event.other "LOOP_SET_STATUS64")
          if !sys.loop_set_status filename then
            Res.fatal "LOOP_SET_STATUS64" (w.emit (Event.other "LOOP_CLR_FD"))
          else Res.ok loopname w

/-- The function `get_fs_mountpoint (root)`; `image_count` is the value of the
static counter, the value is the mount point and the counter after the call. -/
def get_fs_mountpoint (root : String) (image_count : Nat) (w : World) :
    Res (String × Nat) :=
  let filename := "/fs" ++ toString image_count
  (make_fs_dir root filename 0o555 w).andThen (fun full w1 =>
    Res.ok (full, image_count + 1) w1)

/-- The function `mount_image (root, image)`. -/
def mount_image (sys : Sys) (root image : String) (image_count : Nat) (w : World) :
    Res (String × Nat) :=
  (get_fs_mountpoint root image_count w).andThen (fun mc w1 =>
    (attach_loop_device sys image w1).andThen (fun loopdev w2 =>
      match sys_mount sys (some loopdev) mc.1 (some "squashfs")
          (MS_MGC_VAL ||| MS_RDONLY ||| MS_NODEV ||| MS_NOSUID) w2 with
      | (true, w3) => Res.ok mc w3
      | (false, w3) => Res.fatal "mount loopback" w3))

/-- The function `setup_base (root)`. -/
def setup_base (sys : Sys) (root : String) (w : World) : Res Unit :=
  (make_fs_dir root "/proc" 0o555 w).andThen (fun proc_dir w1 =>
    match sys_mount sys (some "proc") proc_dir (some "proc") (MS_MGC_VAL ||| MS_PRIVATE) w1 with
    | (false, w2) => Res.fatal "mount proc" w2
    | (true, w2) =>
      (make_fs_dir root "/dev" 0o555 w2).andThen (fun dev_dir w3 =>
        match sys_mount sys (some "/dev") dev_dir none
            (MS_MGC_VAL ||| MS_BIND ||| MS_NOSUID ||| MS_RDONLY) w3 with
        | (false, w4) => Res.fatal "mount /dev" w4
        | (true, w4) =>
          match sys.getenv_HOME with
          | none => Res.ok () w4
          | some home =>
            (make_fs_dir root home 0o755 w4).andThen (fun new_home w5 =>
              match sys_mount sys (some home) new_home none
                  (MS_MGC_VAL ||| MS_BIND ||| MS_NODEV ||| MS_NOSUID) w5 with
              | (false, w6) => Res.fatal "bind home" w6
              | (true, w6) => Res.ok () w6)))

def R_OK : Int := 4

/-- The loop `for (i = 0; i < n_images; i++)` of the child: probe, then mount,
each image; the value is the list `mountpoints[1..]`. -/
def mount_images (sys : Sys) (ruid : Nat) (root : String) :
    List String → Nat → Proc → World → Res (List String × Proc)
  | [], _, p, w => Res.ok ([], p) w
  | image :: rest, image_count, p, w =>
    match fsuid_access sys.kernel ruid image R_OK p with
    | (ret, p1) =>
      if ret < 0 then Res.fatal "access" w
      else
        (mount_image sys root image image_count w).andThen (fun mc w1 =>
          (mount_images sys ruid root rest mc.2 p1 w1).andThen (fun r w2 =>
            Res.ok (mc.1 :: r.1, r.2) w2))

/-- The child after the hardening calls and the remount of `/`: from
`getcwd` to `execl`.  A successful `execl` ends the model with status 0. -/
def child_rest (sys : Sys) (base_os : String) (images : List String) (root : String)
    (ruid : Nat) (p : Proc) (w : World) : Res Int :=
  let cwd := sys.getcwd
  match fsuid_chdir sys.kernel ruid base_os p with
  | (ret, p1) =>
    if ret < 0 then Res.fatal "chdir" w
    else
      match sys_chdir sys.kernel cwd p1 with
      | (ret, p2) =>
        if ret < 0 then Res.fatal "chdir" w
        else
          match sys_mount sys (some "tmpfs") root (some "tmpfs") (MS_MGC_VAL ||| MS_PRIVATE) w with
          | (false, w1) => Res.fatal "execv" w1
          | (true, w1) =>
            (mount_images sys ruid root images 0 p2 w1).andThen (fun r w2 =>
              let mountpoints := some base_os :: r.1.map some
              (make_fs_dir root "/root" 0o555 w2).andThen (fun app_root w3 =>
                (setup_base sys app_root w3).andThen (fun _ w4 =>
                  (merge_dirs sys.fs sys.fuel app_root mountpoints w4).andThen (fun _ w5 =>
                    match sys_chdir sys.kernel app_root r.2 with
                    | (ret, _) =>
                      if ret < 0 then Res.fatal "chdir" w5
                      else
                        let w6 := w5.emit (Event.other "chroot")
                        if !sys.chroot then Res.fatal "chroot" w6
                        else
                          let w7 := w6.emit (Event.other "setgid")
                          if !sys.setgid then Res.fatal "setgid" w7
                          else
                            let w8 := w7.emit (Event.other "setuid")
                            if !sys.setuid then Res.fatal "setuid" w8
                            else
                              let w9 := w8.emit (Event.other "execl /bin/sh")
                              if !sys.execl then Res.fatal "execl" w9
                              else Res.ok 0 w9))))

/-- The branch `if (child == 0)` of `main`. -/
def child (sys : Sys) (base_os : String) (images : List String) (root : String)
    (ruid : Nat) (p : Proc) (w : World) : Res Int :=
  let w1 := w.emit Event.prctl_no_new_privs
  if sys.prctl_no_new_privs.isSome ∧ sys.prctl_no_new_privs ≠ some EINVAL then
    Res.fatal "prctl (PR_SET_NO_NEW_PRIVS)" w1
  else
    let w2 := w1.emit Event.prctl_securebits_noroot
    if sys.prctl_securebits.isSome then Res.fatal "prctl (SECBIT_NOROOT)" w2
    else
      match sys_mount sys none "/" (some "none") (MS_SLAVE ||| MS_REC) w2 with
      | (false, w3) => Res.fatal "mount(/, MS_SLAVE | MS_REC)" w3
      | (true, w3) => child_rest sys base_os images root ruid p w3

/-- The code of `main` after the `if (child == 0)` block. -/
def parent (sys : Sys) (w : World) : Res Int :=
  let w1 := w.emit (Event.other "setgid")
  if !sys.setgid then Res.fatal "setgid" w1
  else
    let w2 := w1.emit (Event.other "setuid")
    if !sys.setuid then Res.fatal "setuid" w2
    else
      let w3 := w2.emit (Event.other "waitpid")
      match sys.waitpid with
      | none => Res.fatal "waitpid" w3
      | some status =>
        let w4 := w3.emit (Event.other "rmdir")
        match status with
        | some code => Res.ok code w4
        | none => Res.ok 1 w4

/-- The function `main (argc, argv)`: `argc` is the length of `argv`. -/
def main (sys : Sys) (argv : List String) (p : Proc) (w : World) : Res Int :=
  let argc := argv.length
  if argc < 2 then Res.fatal "Too few arguments, need base and at least one image" w
  else
    let base_os := argv.getD 1 ""
    let images := argv.drop 2
    let w1 := w.emit (Event.other "mkdtemp")
    match sys.mkdtemp with
    | none => Res.fatal "Can't create root" w1
    | some root =>
      let w2 : World :=
        { w1 with dest := w1.dest ++ [(root, ⟨DKind.dir, 0o700, 0, 0, none, none⟩)] }
      match sys.getresgid, sys.getresuid with
      | none, _ => Res.fatal "getresgid" w2
      | some _, none => Res.fatal "getresuid" w2
      | some _, some (ruid, _, _) =>
        let w3 := w2.emit (Event.other "clone")
        if sys.clone < 0 then Res.fatal "clone" w3
        else if sys.clone = 0 then child sys base_os images root ruid p w3
        else parent sys w3

/-! ## Concrete file systems, given by tables -/

/-- The path `c` seen through the bind mounts of directories: below a row with
a directory bound on it, the path below that directory. -/
def throughMounts (rows : List (String × DEntry)) (c : String) : String :=
  match rows.findSome? (fun r =>
      match r.2.bound with
      | some src =>
        if (r.1.toList ++ ['/']).isPrefixOf c.toList then
          some (src ++ "/" ++ String.mk (c.toList.drop (r.1.toList.length + 1)))
        else none
      | none => none) with
  | some c1 => c1
  | none => c

/-- Path lookup through the symbolic link at `p` over tables, for a text that
is an absolute path or a path below the directory of the link, without `.` and
`..`; the first argument bounds the number of links followed in a row. -/
def tableFollow (stats : List (String × Stat)) (links : List (String × String))
    (rows : List (String × DEntry)) : Nat → String → Option String
  | 0, _ => none
  | fuel + 1, p =>
    let text : Option String :=
      match rows.find? (fun r => r.1 == p) with
      | some r => if r.2.kind = DKind.symlink then r.2.target else none
      | none => (links.find? (fun r => r.1 == p)).map (fun r => r.2)
    match text with
    | none => none
    | some t =>
      let c := throughMounts rows
        (if t.toList.head? = some '/' then t else parentPath p ++ "/" ++ t)
      match rows.find? (fun r => r.1 == c) with
      | some r =>
        if r.2.kind = DKind.symlink then tableFollow stats links rows fuel c else some c
      | none =>
        match stats.find? (fun r => r.1 == c) with
        | some r => if S_ISLNK r.2.st_mode then tableFollow stats links rows fuel c else some c
        | none => none

/-- A read-only file system given by three tables: the `lstat` result of each
path, the `readdir` listing of each directory and the text of each link. -/
def tableFS (stats : List (String × Stat)) (listings : List (String × List String))
    (links : List (String × String)) : SrcFS where
  lstat := fun p => (stats.find? (fun r => r.1 == p)).map (fun r => r.2)
  readdir := fun p => (listings.find? (fun r => r.1 == p)).map (fun r => r.2)
  readlink := fun p => (links.find? (fun r => r.1 == p)).map (fun r => r.2)
  follow := fun rows p => tableFollow stats links rows 8 p

def regStat : Stat := ⟨0o100644, 1000, 1000⟩
def dirStat : Stat := ⟨0o040755, 0, 0⟩
def fifoStat : Stat := ⟨0o010644, 0, 0⟩
def lnkStat : Stat := ⟨0o120777, 0, 0⟩

/-- Layer `/A` holds the regular file `x`, layer `/B` the directory `x`. -/
def fsFileDir : SrcFS :=
  tableFS
    [("/A", dirStat), ("/B", dirStat), ("/A/x", regStat), ("/B/x", dirStat)]
    [("/A", [".", "..", "x"]), ("/B", [".", "..", "x"]), ("/B/x", [".", ".."])]
    []

/-- Layers `/A` and `/B` both hold a regular file `y`. -/
def fsTwoFiles : SrcFS :=
  tableFS
    [("/A", dirStat), ("/B", dirStat), ("/A/y", regStat), ("/B/y", ⟨0o100600, 0, 0⟩)]
    [("/A", [".", "..", "y"]), ("/B", [".", "..", "y"])]
    []

/-- The host has a directory `/lib` holding `secret`.  The layers `/base` and
`/i1` both hold `usr/lib`, the layer `/i2` is an empty directory. -/
def fsHostLib : SrcFS :=
  tableFS
    [("/base", dirStat), ("/i1", dirStat), ("/i2", dirStat),
     ("/base/usr", dirStat), ("/i1/usr", dirStat),
     ("/base/usr/lib", dirStat), ("/i1/usr/lib", dirStat),
     ("/base/usr/lib/a", regStat), ("/i1/usr/lib/b", regStat),
     ("/lib", dirStat), ("/lib/secret", ⟨0o100600, 0, 0⟩)]
    [("/base", [".", "..", "usr"]), ("/i1", [".", "..", "usr"]), ("/i2", [".", ".."]),
     ("/base/usr", [".", "..", "lib"]), ("/i1/usr", [".", "..", "lib"]),
     ("/base/usr/lib", [".", "..", "a"]), ("/i1/usr/lib", [".", "..", "b"]),
     ("/lib", [".", "..", "secret"])]
    []

/-- A kernel that lets every check pass. -/
def permissive : Kernel where
  chdir := fun _ _ => none
  access := fun _ _ _ => none

/-- A run in which every system call succeeds, seen from the child
(`clone` returns 0), over the file system `fs`. -/
def sysChild (fs : SrcFS) : Sys where
  fs := fs
  kernel := permissive
  mkdtemp := some "/tmp/approot_1"
  getresgid := some (1000, 0, 0)
  getresuid := some (1000, 0, 0)
  clone := 0
  prctl_no_new_privs := none
  prctl_securebits := none
  mount := fun _ _ _ _ => true
  getcwd := "/home/me"
  getenv_HOME := none
  open_loop_control := true
  loop_ctl_get_free := fun _ => some 0
  loop_is_blk := fun _ => true
  open_loop := fun _ => true
  open_image := fun _ => true
  loop_set_fd := fun _ => true
  loop_set_status := fun _ => true
  chroot := true
  setgid := true
  setuid := true
  execl := true
  waitpid := some (some 0)
  fuel := 8

/-- A base tree `/base` with the single regular file `f`. -/
def fsBase : SrcFS :=
  tableFS [("/base", dirStat), ("/base/f", regStat)] [("/base", [".", "..", "f"])] []

def proc0 : Proc := ⟨1000, 0, 0, "/home/me"⟩

/-- The log of `w` is an initial part of the log of `w1`. -/
def World.Before (w w1 : World) : Prop := w.log <+: w1.log

/-- A scratch file system holding the directory `/tmp/r`. -/
def scratch1 : World := ⟨[("/tmp/r", ⟨DKind.dir, 0o700, 0, 0, none, none⟩)], []⟩

/-- The scratch file system `scratch1` after `home/me` was made under `/tmp/r`. -/
def scratch2 : World :=
  ⟨[("/tmp/r", ⟨DKind.dir, 0o700, 0, 0, none, none⟩),
    ("/tmp/r/home", ⟨DKind.dir, 0o755, 0, 0, none, none⟩),
    ("/tmp/r/home/me", ⟨DKind.dir, 0o755, 0, 0, none, none⟩)], []⟩

/-! ## Rows of the merged tree -/

/-- The row `bind_file` leaves for a regular file bound from `src`. -/
def fileRow (st : Stat) (src : String) : DEntry :=
  ⟨DKind.file, st.st_mode &&& 0o777, st.st_uid, st.st_gid, none, some src⟩

/-- The row of a directory made with the mode and owner of `st`, with the
bind mount `bound` on it, if any. -/
def dirRow (st : Stat) (bound : Option String) : DEntry :=
  ⟨DKind.dir, st.st_mode &&& 0o777, st.st_uid, st.st_gid, none, bound⟩

/-- The row `bind_file` leaves for a symbolic link with text `target`. -/
def lnkRow (st : Stat) (target : String) : DEntry :=
  ⟨DKind.symlink, 0o777, st.st_uid, st.st_gid, some target, none⟩

/-- The path `q` lies below the directory `root`. -/
def Under (root q : String) : Prop := ∃ rest, q = root ++ "/" ++ rest

/-- The rows of `w1` are those of `w`, unchanged, followed by rows below `root`. -/
def World.Grows (root : String) (w w1 : World) : Prop :=
  ∃ added, w1.dest = w.dest ++ added ∧ ∀ x ∈ added, Under root x.1

/-- The test of `merge_dirs` for the entries it skips with a warning. -/
def isSpecial (m : Nat) : Bool := S_ISCHR m || S_ISBLK m || S_ISFIFO m || S_ISSOCK m

/-- Path lookup in the read-only file system: the entry reached from the
directory `path` by the names in turn, every name but the last a directory. -/
def srcLookup (fs : SrcFS) : String → List String → Option Stat
  | _, [] => none
  | path, [n] => fs.lstat (strconcat (some path) (some "/") (some n))
  | path, n :: m :: rest =>
    match fs.lstat (strconcat (some path) (some "/") (some n)) with
    | some st =>
      if S_ISDIR st.st_mode then
        srcLookup fs (strconcat (some path) (some "/") (some n)) (m :: rest)
      else none
    | none => none

/-- Whether the merged tree under `root` shows an entry at the relative path
`names`: a row of the scratch file system, or, behind a directory with a bind
mount on it, an entry of the directory that was bound. -/
def mergedHas (fs : SrcFS) (w : World) : String → List String → Bool
  | _, [] => false
  | root, [n] => (w.lstat (strconcat (some root) (some "/") (some n))).isSome
  | root, n :: m :: rest =>
    match w.lstat (strconcat (some root) (some "/") (some n)) with
    | none => false
    | some e =>
      if e.kind = DKind.dir then
        match e.bound with
        | some src => (srcLookup fs src (m :: rest)).isSome
        | none => mergedHas fs w (strconcat (some root) (some "/") (some n)) (m :: rest)
      else false

/-- Layer `/A` holds the directory `d` with the named pipe `p` in it. -/
def fsPipeInDir : SrcFS :=
  tableFS
    [("/A", dirStat), ("/A/d", dirStat), ("/A/d/p", fifoStat)]
    [("/A", [".", "..", "d"]), ("/A/d", [".", "..", "p"])]
    []

/-- Layer `/A` holds the named pipe `p`. -/
def fsPipe : SrcFS :=
  tableFS [("/A", dirStat), ("/A/p", fifoStat)] [("/A", [".", "..", "p"])] []

/-- Layer `/A` holds the regular file `a` and the symbolic link `l`, layer
`/B` the directory `s`. -/
def fsDisjoint : SrcFS :=
  tableFS
    [("/A", dirStat), ("/B", dirStat), ("/A/a", regStat), ("/A/l", lnkStat),
     ("/B/s", dirStat)]
    [("/A", [".", "..", "a", "l"]), ("/B", [".", "..", "s"])]
    [("/A/l", "a")]

/-- A name as `readdir` gives it for a real entry: not `.`, not `..`, no slash. -/
def Proper (n : String) : Prop := n ≠ "." ∧ n ≠ ".." ∧ '/' ∉ n.toList

/-- The entry at `p` is a regular file, a directory or a symbolic link whose
text fits the buffer of `bind_file`. -/
def Plain (fs : SrcFS) (p : String) (st : Stat) : Prop :=
  S_ISREG st.st_mode = true ∨ S_ISDIR st.st_mode = true ∨
    (S_ISLNK st.st_mode = true ∧ ∃ t, fs.readlink p = some t ∧ t.utf8ByteSize < 1024)

/-- The directories `A` and `B` can be merged with `k` levels of recursion:
both can be listed, the listed names are proper and plain, a name of one
directory is either unknown to the other or a directory in both, and then the
two subdirectories can be merged with `k - 1` levels. -/
def Mergeable (fs : SrcFS) : Nat → String → String → Prop
  | 0, _, _ => False
  | k + 1, A, B =>
    ∃ na nb, fs.readdir A = some na ∧ fs.readdir B = some nb ∧
      (∀ n ∈ na, n ≠ "." → n ≠ ".." → '/' ∉ n.toList ∧
        ∃ st, fs.lstat (strconcat (some A) (some "/") (some n)) = some st ∧
          Plain fs (strconcat (some A) (some "/") (some n)) st ∧
          ((fs.lstat (strconcat (some B) (some "/") (some n)) = none ∧ n ∉ nb) ∨
           (n ∈ nb ∧ S_ISDIR st.st_mode = true ∧
            Mergeable fs k (strconcat (some A) (some "/") (some n))
              (strconcat (some B) (some "/") (some n))))) ∧
      (∀ n ∈ nb, n ≠ "." → n ≠ ".." → '/' ∉ n.toList ∧
        ∃ st, fs.lstat (strconcat (some B) (some "/") (some n)) = some st ∧
          Plain fs (strconcat (some B) (some "/") (some n)) st ∧
          ((fs.lstat (strconcat (some A) (some "/") (some n)) = none ∧ n ∉ na) ∨
           (n ∈ na ∧ S_ISDIR st.st_mode = true)))

/-- The row `bind_file` leaves for the entry `st` at the source path `src`. -/
def boundRow (fs : SrcFS) (src : String) (st : Stat) : DEntry :=
  if S_ISREG st.st_mode then fileRow st src
  else if S_ISDIR st.st_mode then dirRow st (some src)
  else lnkRow st ((fs.readlink src).getD "")

/-- The rows `e` and `e1` agree in all but the permission bits they were
created with. -/
def SameButMode (e e1 : DEntry) : Prop :=
  e.kind = e1.kind ∧ e.uid = e1.uid ∧ e.gid = e1.gid ∧ e.target = e1.target ∧
    e.bound = e1.bound

/-- What the destination directory `root` holds under the name `n` when it is
the union of the directories `A` (listing `na`) and `B` (listing `nb`): the
entry of the one directory that lists `n`, bound from there; one directory that
is not a bind mount, with the owner of the entry of `A`, when both list `n`,
and then `below` says what that directory holds; nothing when neither lists
`n`.  The permission bits of the rows are left open. -/
def Slot (fs : SrcFS) (w : World) (root A B : String) (na nb : List String) (n : String)
    (below : Prop) : Prop :=
  (n ∈ na → n ∉ nb →
    ∃ st e, fs.lstat (strconcat (some A) (some "/") (some n)) = some st ∧
      w.lstat (strconcat (some root) (some "/") (some n)) = some e ∧
      SameButMode e (boundRow fs (strconcat (some A) (some "/") (some n)) st)) ∧
  (n ∉ na → n ∈ nb →
    ∃ st e, fs.lstat (strconcat (some B) (some "/") (some n)) = some st ∧
      w.lstat (strconcat (some root) (some "/") (some n)) = some e ∧
      SameButMode e (boundRow fs (strconcat (some B) (some "/") (some n)) st)) ∧
  (n ∈ na → n ∈ nb →
    (∃ st e, fs.lstat (strconcat (some A) (some "/") (some n)) = some st ∧
      w.lstat (strconcat (some root) (some "/") (some n)) = some e ∧
      SameButMode e (dirRow st none)) ∧
    below) ∧
  (n ∉ na → n ∉ nb → w.lstat (strconcat (some root) (some "/") (some n)) = none)

/-- The destination directory `root` of `w` is the union of the directories
`A` and `B`, same-named subdirectories being united in turn, down to `k`
levels. -/
def UnionOf (fs : SrcFS) (w : World) : Nat → String → String → String → Prop
  | 0, _, _, _ => False
  | k + 1, root, A, B =>
    ∀ na nb, fs.readdir A = some na → fs.readdir B = some nb →
      ∀ n, Proper n →
        Slot fs w root A B na nb n
          (UnionOf fs w k (strconcat (some root) (some "/") (some n))
            (strconcat (some A) (some "/") (some n))
            (strconcat (some B) (some "/") (some n)))

/-- Layers `/A` and `/B` both hold the directory `d`, with the file `a` in the
one and the file `b` in the other. -/
def fsShared : SrcFS :=
  tableFS
    [("/A", dirStat), ("/B", dirStat), ("/A/d", dirStat), ("/B/d", dirStat),
     ("/A/d/a", regStat), ("/B/d/b", regStat)]
    [("/A", [".", "..", "d"]), ("/B", [".", "..", "d"]),
     ("/A/d", [".", "..", "a"]), ("/B/d", [".", "..", "b"])]
    []

/-- Layers `/A` and `/B` both hold the directory `d`, with the named pipe `p`
in the one and the file `b` in the other. -/
def fsSharedPipe : SrcFS :=
  tableFS
    [("/A", dirStat), ("/B", dirStat), ("/A/d", dirStat), ("/B/d", dirStat),
     ("/A/d/p", fifoStat), ("/B/d/b", regStat)]
    [("/A", [".", "..", "d"]), ("/B", [".", "..", "d"]),
     ("/A/d", [".", "..", "p"]), ("/B/d", [".", "..", "b"])]
    []

/-- The path `q` is the entry `n` of the directory `root` or lies below it. -/
def AtName (root n q : String) : Prop :=
  q = root ++ "/" ++ n ∨ Under (root ++ "/" ++ n) q

/-- No row of `w` is the entry `n` of `root` or lies below it. -/
def Untouched (w : World) (root n : String) : Prop :=
  ∀ x ∈ w.dest, ¬ AtName root n x.1

/-- The name `n` of the destination directory `root` is as the union of `A`
and `B` with `k + 1` levels wants it. -/
def Done (fs : SrcFS) (w : World) (k : Nat) (root A B : String) (na nb : List String)
    (n : String) : Prop :=
  Slot fs w root A B na nb n
    (UnionOf fs w k (strconcat (some root) (some "/") (some n))
      (strconcat (some A) (some "/") (some n))
      (strconcat (some B) (some "/") (some n)))

/-- Between two turns of the loops of `merge_dirs` on `A` and `B`: a name is
either untouched or listed and done. -/
def LevelInv (fs : SrcFS) (w : World) (k : Nat) (root A B : String) (na nb : List String) :
    Prop :=
  ∀ n, Proper n → Untouched w root n ∨ ((n ∈ na ∨ n ∈ nb) ∧ Done fs w k root A B na nb n)

/-- A kernel that lets the filesystem identity 0 pass every check and denies
every other identity with `EACCES`. -/
def rootOnly : Kernel where
  chdir := fun p _ => if p.fsuid = 0 then none else some 13
  access := fun p _ _ => if p.fsuid = 0 then none else some 13

/-- The name `n` is one `readdir` returns for some directory, other than `.`
and `..`. -/
def Listed (fs : SrcFS) (n : String) : Prop :=
  ∃ q names, fs.readdir q = some names ∧ n ∈ names ∧ n ≠ "." ∧ n ≠ ".."

/-- Directories nest at most `k` levels deep below the directory `p`: at level
0 no entry of `p` is a directory, at level `k + 1` the entries of `p` that are
directories hold directories at most `k` levels deep.  The entries are reached
by the names `readdir` returns. -/
def Shallow (fs : SrcFS) : Nat → String → Prop
  | 0, p => ∀ n st, Listed fs n →
      fs.lstat (strconcat (some p) (some "/") (some n)) = some st →
      S_ISDIR st.st_mode = false
  | k + 1, p => ∀ n st, Listed fs n →
      fs.lstat (strconcat (some p) (some "/") (some n)) = some st →
      S_ISDIR st.st_mode = true → Shallow fs k (strconcat (some p) (some "/") (some n))

/-- Layers `/A` and `/B` both hold the directory `d`; `/A` also holds the
symbolic link `l` to `d`, listed after `d`. -/
def fsSharedLink : SrcFS :=
  tableFS
    [("/A", dirStat), ("/B", dirStat), ("/A/d", dirStat), ("/B/d", dirStat),
     ("/A/d/a", regStat), ("/B/d/b", regStat), ("/A/l", lnkStat)]
    [("/A", [".", "..", "d", "l"]), ("/B", [".", "..", "d"]),
     ("/A/d", [".", "..", "a"]), ("/B/d", [".", "..", "b"])]
    [("/A/l", "d")]

/-! # Theorems -/

/-! ## What `chmod` leaves alone -/

theorem fmt_of_chmod (a m : Nat) :
    ((a &&& S_IFMT) ||| (m &&& 0o7777)) &&& S_IFMT = a &&& S_IFMT := by
  unfold S_IFMT
  rw [Nat.and_comm, Nat.and_or_distrib_left, Nat.and_comm, Nat.and_assoc,
    Nat.and_comm 0o170000 (m &&& 0o7777), Nat.and_assoc]
  have h1 : (0o7777 : Nat) &&& 0o170000 = 0 := by decide
  have h2 : (0o170000 : Nat) &&& 0o170000 = 0o170000 := by decide
  rw [h1, h2, Nat.and_zero, Nat.or_zero]

theorem World.chmodOf_masked (w : World) (i : Inode) (m : Nat) (h : w.chmodOf i = some m) :
    ∃ m0, m = m0 &&& 0o7777 := by
  unfold World.chmodOf at h
  have key : ∀ (l : List Event) (acc : Option Nat),
      (∀ x, acc = some x → ∃ m0, x = m0 &&& 0o7777) →
      ∀ x, l.foldl (fun acc e =>
        match e with
        | Event.chmod _ m (some j) => if j = i then some (m &&& 0o7777) else acc
        | _ => acc) acc = some x → ∃ m0, x = m0 &&& 0o7777 := by
    intro l
    induction l with
    | nil => intro acc hacc x hx; exact hacc x hx
    | cons e rest ih =>
      intro acc hacc x hx
      simp only [List.foldl_cons] at hx
      refine ih _ ?_ x hx
      intro y hy
      split at hy
      · split at hy
        · cases hy; exact ⟨_, rfl⟩
        · exact hacc y hy
      · exact hacc y hy
  exact key w.log none (fun x hx => by cases hx) m h

theorem World.restat_fmt (w : World) (p : String) (st : Stat) :
    (w.restat p st).st_mode &&& S_IFMT = st.st_mode &&& S_IFMT := by
  unfold World.restat
  split
  · rfl
  · split
    · rename_i m hm
      obtain ⟨m0, rfl⟩ := World.chmodOf_masked w _ m hm
      exact fmt_of_chmod _ _
    · rfl

theorem World.restat_uid (w : World) (p : String) (st : Stat) :
    (w.restat p st).st_uid = st.st_uid := by
  unfold World.restat
  split
  · rfl
  · split <;> rfl

theorem World.restat_gid (w : World) (p : String) (st : Stat) :
    (w.restat p st).st_gid = st.st_gid := by
  unfold World.restat
  split
  · rfl
  · split <;> rfl

theorem World.isreg_restat (w : World) (p : String) (st : Stat) :
    S_ISREG (w.restat p st).st_mode = S_ISREG st.st_mode := by
  unfold S_ISREG
  rw [World.restat_fmt]

theorem World.isdir_restat (w : World) (p : String) (st : Stat) :
    S_ISDIR (w.restat p st).st_mode = S_ISDIR st.st_mode := by
  unfold S_ISDIR
  rw [World.restat_fmt]

theorem World.islnk_restat (w : World) (p : String) (st : Stat) :
    S_ISLNK (w.restat p st).st_mode = S_ISLNK st.st_mode := by
  unfold S_ISLNK
  rw [World.restat_fmt]

theorem World.special_restat (w : World) (p : String) (st : Stat) :
    (S_ISCHR (w.restat p st).st_mode || S_ISBLK (w.restat p st).st_mode
      || S_ISFIFO (w.restat p st).st_mode || S_ISSOCK (w.restat p st).st_mode)
    = (S_ISCHR st.st_mode || S_ISBLK st.st_mode || S_ISFIFO st.st_mode
      || S_ISSOCK st.st_mode) := by
  unfold S_ISCHR S_ISBLK S_ISFIFO S_ISSOCK
  rw [World.restat_fmt]

theorem World.lstatSrc_some (fs : SrcFS) (w : World) (p : String) (st : Stat)
    (h : fs.lstat p = some st) : w.lstatSrc fs p = some (w.restat p st) := by
  unfold World.lstatSrc
  rw [h]
  rfl

theorem World.lstatSrc_none (fs : SrcFS) (w : World) (p : String)
    (h : fs.lstat p = none) : w.lstatSrc fs p = none := by
  unfold World.lstatSrc
  rw [h]
  rfl

theorem World.lstatSrc_inv (fs : SrcFS) (w : World) (p : String) (st : Stat)
    (h : w.lstatSrc fs p = some st) :
    ∃ st0, fs.lstat p = some st0 ∧ st = w.restat p st0 := by
  unfold World.lstatSrc at h
  cases h0 : fs.lstat p with
  | none => rw [h0] at h; cases h
  | some st0 =>
    rw [h0] at h
    simp only [Option.map_some', Option.some.injEq] at h
    exact ⟨st0, rfl, h.symm⟩

theorem World.before_chmod (fs : SrcFS) (w : World) (path : String) (m : Nat) :
    w.Before (w.chmod fs path m) := by
  unfold World.chmod World.Before World.emit
  exact List.prefix_append _ _

/-! ## Evaluations on concrete layers -/

/-- C1: with layer `/A` holding the regular file `x` and layer `/B` holding
the directory `x`, visited in that order, `merge_dirs` into an empty
destination returns normally and leaves a directory `x` at the destination:
the entry of the layer being visited is left out of the type comparison of
`has_conflict`, so the filename-conflict exit is not taken. -/
theorem merge_file_then_dir_not_refused :
    merge_dirs fsFileDir 5 "/m" [some "/A", some "/B"] World.empty
      = Res.ok () ⟨[("/m/x", ⟨DKind.dir, 0o644, 1000, 1000, none, none⟩)], []⟩ := by
  decide

/-- C7 (as stated, refuted): two layers that both hold a regular file `y` do
not get one `y` materialised; `merge_dirs` takes the filename-conflict exit
with nothing created. -/
theorem merge_two_files_is_fatal :
    merge_dirs fsTwoFiles 5 "/m" [some "/A", some "/B"] World.empty
      = Res.fatal "Filename conflicts, refusing to mount\n" World.empty := by
  decide

/-- C10: `get_subdir` on a `NULL` layer is not `NULL` when the host has a
directory of that name at its root: the rebound layer is the host path
`/lib`, and the merge of three layers, the third without `usr`, puts the host
file `/lib/secret` into the merged `usr/lib`. -/
theorem null_layer_rebound_to_host_path :
    get_subdir fsHostLib none "lib" = some "/lib" ∧
    (merge_dirs fsHostLib 5 "/m" [some "/base", some "/i1", some "/i2"]
        World.empty).world.lstat "/m/usr/lib/secret"
      = some ⟨DKind.file, 0o600, 0, 0, none, some "/lib/secret"⟩ := by
  decide

/-- C4: with the program name and the base OS path only, `main` does not take
the usage exit: it creates the scratch root and spawns the child, which runs
to the shell. -/
theorem main_without_image_runs :
    main (sysChild fsBase) ["run-merged", "/base"] proc0 World.empty
        ≠ Res.fatal "Too few arguments, need base and at least one image" World.empty ∧
    Event.other "mkdtemp" ∈
        (main (sysChild fsBase) ["run-merged", "/base"] proc0 World.empty).world.log ∧
    Event.other "clone" ∈
        (main (sysChild fsBase) ["run-merged", "/base"] proc0 World.empty).world.log ∧
    Event.other "execl /bin/sh" ∈
        (main (sysChild fsBase) ["run-merged", "/base"] proc0 World.empty).world.log := by
  decide

/-! ## The permission probes -/

/-- C5: `fsuid_chdir` and `fsuid_access` return what the one `chdir`/`access`
check returns when it is made with the filesystem identity set to `uid` (so a
denial to that identity is a failure of the probe, whatever identity 0 would
be allowed), and they end with the filesystem identity 0 and the `errno` the
check left. -/
theorem fsuid_probes_check_as_uid_and_restore (k : Kernel) (uid : Nat) (path : String)
    (mode : Int) (p : Proc) :
    ((fsuid_chdir k uid path p).1 = (sys_chdir k path (setfsuid uid p)).1 ∧
     (fsuid_chdir k uid path p).2.fsuid = 0 ∧
     (fsuid_chdir k uid path p).2.errno = (sys_chdir k path (setfsuid uid p)).2.errno ∧
     (∀ e, k.chdir (setfsuid uid p) path = some e →
        (fsuid_chdir k uid path p).1 = -1 ∧ (fsuid_chdir k uid path p).2.errno = e)) ∧
    ((fsuid_access k uid path mode p).1 = (sys_access k path mode (setfsuid uid p)).1 ∧
     (fsuid_access k uid path mode p).2.fsuid = 0 ∧
     (fsuid_access k uid path mode p).2.errno
        = (sys_access k path mode (setfsuid uid p)).2.errno ∧
     (∀ e, k.access (setfsuid uid p) path mode = some e →
        (fsuid_access k uid path mode p).1 = -1 ∧
        (fsuid_access k uid path mode p).2.errno = e)) := by
  refine ⟨⟨rfl, rfl, rfl, ?_⟩, ⟨rfl, rfl, rfl, ?_⟩⟩
  · intro e he
    simp [fsuid_chdir, sys_chdir, he]
  · intro e he
    simp [fsuid_access, sys_access, he]

/-- Witness for `fsuid_probes_check_as_uid_and_restore`: under a kernel that
only lets identity 0 pass, the probes made for uid 1000 by a process whose
filesystem identity is 0 fail with `EACCES` and end with identity 0. -/
theorem fsuid_probes_witness :
    rootOnly.chdir proc0 "/base" = none ∧
    ((fsuid_chdir rootOnly 1000 "/base" proc0).1 = -1 ∧
      (fsuid_chdir rootOnly 1000 "/base" proc0).2.errno = 13) ∧
    (fsuid_chdir rootOnly 1000 "/base" proc0).2.fsuid = 0 ∧
    ((fsuid_access rootOnly 1000 "/img" R_OK proc0).1 = -1 ∧
      (fsuid_access rootOnly 1000 "/img" R_OK proc0).2.errno = 13) ∧
    (fsuid_access rootOnly 1000 "/img" R_OK proc0).2.fsuid = 0 :=
  ⟨by decide,
   (fsuid_probes_check_as_uid_and_restore rootOnly 1000 "/base" R_OK proc0).1.2.2.2 13
     (by decide),
   (fsuid_probes_check_as_uid_and_restore rootOnly 1000 "/base" R_OK proc0).1.2.1,
   (fsuid_probes_check_as_uid_and_restore rootOnly 1000 "/img" R_OK proc0).2.2.2.2 13
     (by decide),
   (fsuid_probes_check_as_uid_and_restore rootOnly 1000 "/img" R_OK proc0).2.2.1⟩

/-! ## The log only grows -/

theorem World.before_refl (w : World) : w.Before w := List.prefix_refl _

theorem World.before_trans {a b c : World} (h1 : a.Before b) (h2 : b.Before c) :
    a.Before c := List.IsPrefix.trans h1 h2

theorem World.before_emit (w : World) (e : Event) : w.Before (w.emit e) := by
  unfold World.Before World.emit
  exact List.prefix_append _ _

theorem World.before_create {w w1 : World} {path : String} {e : DEntry}
    (h : w.create path e = some w1) : w.Before w1 := by
  unfold World.create at h
  split at h
  · cases h
  · cases h; exact List.prefix_refl _

theorem World.before_creat {w w1 : World} {path : String} {m : Nat}
    (h : w.creat path m = some w1) : w.Before w1 := by
  unfold World.creat at h
  split at h
  · split at h
    · cases h; exact List.prefix_refl _
    · cases h
  · cases h; exact List.prefix_refl _

theorem World.before_lchown {w w1 : World} {path : String} {u g : Nat}
    (h : w.lchown path u g = some w1) : w.Before w1 := by
  unfold World.lchown at h
  split at h
  · cases h
  · cases h; exact List.prefix_refl _

theorem World.before_bindMount {w w1 : World} {src path : String} {f : Nat}
    (h : w.bindMount src path f = some w1) : w.Before w1 := by
  unfold World.bindMount at h
  split at h
  · cases h
  · cases h; exact List.prefix_append _ _

theorem World.before_mkdirE {w w1 : World} {path : String} {m : Nat}
    (h : w.mkdirE path m = Except.ok w1) : w.Before w1 := by
  unfold World.mkdirE at h
  simp only [] at h
  split at h
  · cases h
  · split at h
    · cases h
    · split at h
      · cases h; exact List.prefix_refl _
      · cases h

theorem Res.andThen_before {α β : Type} (w : World) (r : Res α) (f : α → World → Res β)
    (hr : w.Before r.world) (hf : ∀ (a : α) (w1 : World), w1.Before (f a w1).world) :
    w.Before (r.andThen f).world := by
  cases r with
  | ok a w1 => exact World.before_trans hr (hf a w1)
  | fatal msg w1 => exact hr
  | nofuel w1 => exact hr

theorem orFatal_before {α : Type} (call : Option World) (msg : String) (w : World)
    (k : World → Res α) (hc : ∀ w1 : World, call = some w1 → w.Before w1)
    (hk : ∀ w1 : World, w1.Before (k w1).world) : w.Before (orFatal call msg w k).world := by
  cases call with
  | none => exact World.before_refl w
  | some w1 => exact World.before_trans (hc w1 rfl) (hk w1)

theorem bind_file_before (fs : SrcFS) (src dst : String) (st : Stat) (w : World) :
    w.Before (bind_file fs src dst st w).world := by
  unfold bind_file
  split
  · refine orFatal_before _ _ _ _ (fun _ h => World.before_creat h) (fun w1 => ?_)
    refine orFatal_before _ _ _ _ (fun _ h => World.before_lchown h) (fun w2 => ?_)
    exact orFatal_before _ _ _ _ (fun _ h => World.before_bindMount h)
      (fun w3 => World.before_refl w3)
  · split
    · refine orFatal_before _ _ _ _ (fun _ h => World.before_create h) (fun w1 => ?_)
      refine orFatal_before _ _ _ _ (fun _ h => World.before_lchown h) (fun w2 => ?_)
      exact orFatal_before _ _ _ _ (fun _ h => World.before_bindMount h)
        (fun w3 => World.before_refl w3)
    · split
      · split
        · exact World.before_refl w
        · split
          · exact World.before_refl w
          · refine orFatal_before _ _ _ _ (fun _ h => World.before_create h) (fun w1 => ?_)
            cases hl : (w1.chmod fs dst (st.st_mode &&& 0o777)).lchown dst
                st.st_uid st.st_gid with
            | none => exact World.before_chmod _ _ _ _
            | some w3 =>
              exact World.before_trans (World.before_chmod _ _ _ _) (World.before_lchown hl)
      · exact World.before_refl w

theorem merge_entry_before (fs : SrcFS)
    (recur : String → List (Option String) → World → Res Unit)
    (hrec : ∀ r d (w : World), w.Before (recur r d w).world)
    (root : String) (dirs : List (Option String)) (i : Nat) (di name : String) (w : World) :
    w.Before (merge_entry fs recur root dirs i di name w).world := by
  unfold merge_entry
  simp only []
  split
  · exact World.before_refl w
  · split
    · exact World.before_refl w
    · split
      · exact World.before_refl w
      · split
        · exact World.before_emit _ _
        · split
          · exact bind_file_before _ _ _ _ _
          · refine orFatal_before _ _ _ _ (fun _ h => World.before_create h) (fun w1 => ?_)
            exact orFatal_before _ _ _ _ (fun _ h => World.before_lchown h)
              (fun w2 => hrec _ _ _)
          · exact World.before_refl w

theorem merge_entries_before (fs : SrcFS)
    (recur : String → List (Option String) → World → Res Unit)
    (hrec : ∀ r d (w : World), w.Before (recur r d w).world)
    (root : String) (dirs : List (Option String)) (i : Nat) (di : String)
    (names : List String) (w : World) :
    w.Before (merge_entries fs recur root dirs i di names w).world := by
  induction names generalizing w with
  | nil => exact World.before_refl w
  | cons n rest ih =>
    unfold merge_entries
    have h1 := merge_entry_before fs recur hrec root dirs i di n w
    cases hr : merge_entry fs recur root dirs i di n w with
    | ok a w1 =>
      rw [hr] at h1
      exact World.before_trans h1 (ih w1)
    | fatal msg w1 => rw [hr] at h1; exact h1
    | nofuel w1 => rw [hr] at h1; exact h1

theorem merge_layers_before (fs : SrcFS)
    (recur : String → List (Option String) → World → Res Unit)
    (hrec : ∀ r d (w : World), w.Before (recur r d w).world)
    (root : String) (dirs : List (Option String)) (i : Nat)
    (todo : List (Option String)) (w : World) :
    w.Before (merge_layers fs recur root dirs i todo w).world := by
  induction todo generalizing w i with
  | nil => exact World.before_refl w
  | cons d rest ih =>
    unfold merge_layers
    cases d with
    | none => exact ih _ _
    | some di =>
      simp only []
      cases hd : fs.readdir di with
      | none => exact ih _ _
      | some names =>
        simp only []
        have h1 := merge_entries_before fs recur hrec root dirs i di names w
        cases hr : merge_entries fs recur root dirs i di names w with
        | ok a w1 =>
          rw [hr] at h1
          exact World.before_trans h1 (ih _ w1)
        | fatal msg w1 => rw [hr] at h1; exact h1
        | nofuel w1 => rw [hr] at h1; exact h1

theorem merge_dirs_before (fs : SrcFS) (fuel : Nat) (root : String)
    (dirs : List (Option String)) (w : World) :
    w.Before (merge_dirs fs fuel root dirs w).world := by
  induction fuel generalizing root dirs w with
  | zero => exact World.before_refl w
  | succ n ih =>
    unfold merge_dirs
    exact merge_layers_before fs _ (fun r d w1 => ih r d w1) root dirs 0 dirs w

theorem make_fs_dir_loop_before (mode : Nat) (acc rest : List Char) (w : World) :
    w.Before (make_fs_dir_loop mode acc rest w).world := by
  induction rest generalizing acc w with
  | nil =>
    unfold make_fs_dir_loop
    cases h : w.mkdirE (String.mk acc) mode with
    | ok w1 => exact World.before_mkdirE h
    | error e =>
      simp only []
      split
      · exact World.before_refl w
      · exact World.before_refl w
  | cons c cs ih =>
    unfold make_fs_dir_loop
    split
    · cases h : w.mkdirE (String.mk acc) mode with
      | ok w1 => exact World.before_trans (World.before_mkdirE h) (ih _ _)
      | error e =>
        simp only []
        split
        · exact World.before_refl w
        · exact ih _ _
    · exact ih _ _

theorem make_fs_dir_before (root dir : String) (mode : Nat) (w : World) :
    w.Before (make_fs_dir root dir mode w).world := by
  unfold make_fs_dir
  simp only []
  have h := make_fs_dir_loop_before mode (root.toList ++ ['/']) (skipSlashes dir).toList w
  cases hr : make_fs_dir_loop mode (root.toList ++ ['/']) (skipSlashes dir).toList w with
  | ok a w1 => rw [hr] at h; exact h
  | fatal msg w1 => rw [hr] at h; exact h
  | nofuel w1 => rw [hr] at h; exact h

theorem before_emit2 (w : World) (a b : Event) : w.Before ((w.emit a).emit b) :=
  World.before_trans (World.before_emit w a) (World.before_emit _ b)

theorem sys_mount_before (sys : Sys) (source : Option String) (target : String)
    (fstype : Option String) (flags : Nat) (w : World) :
    w.Before (sys_mount sys source target fstype flags w).2 :=
  World.before_emit _ _

theorem attach_loop_device_before (sys : Sys) (filename : String) (w : World) :
    w.Before (attach_loop_device sys filename w).world := by
  unfold attach_loop_device
  simp only []
  have e1 := World.before_emit w (Event.other "open /dev/loop-control")
  have e2 := World.before_trans e1
    (World.before_emit (w.emit (Event.other "open /dev/loop-control"))
      (Event.other "LOOP_CTL_GET_FREE"))
  have e3 := World.before_trans e2 (World.before_emit _ (Event.other "LOOP_SET_FD"))
  have e4 := World.before_trans e3 (World.before_emit _ (Event.other "LOOP_SET_STATUS64"))
  have e5 := World.before_trans e4 (World.before_emit _ (Event.other "LOOP_CLR_FD"))
  repeat' split
  all_goals first
    | exact e1
    | exact e2
    | exact e3
    | exact e4
    | exact e5

theorem get_fs_mountpoint_before (root : String) (c : Nat) (w : World) :
    w.Before (get_fs_mountpoint root c w).world := by
  unfold get_fs_mountpoint
  exact Res.andThen_before w _ _ (make_fs_dir_before _ _ _ _) (fun _ w1 => World.before_refl w1)

theorem mount_image_before (sys : Sys) (root image : String) (c : Nat) (w : World) :
    w.Before (mount_image sys root image c w).world := by
  unfold mount_image
  refine Res.andThen_before w _ _ (get_fs_mountpoint_before _ _ _) (fun mc w1 => ?_)
  refine Res.andThen_before w1 _ _ (attach_loop_device_before _ _ _) (fun l w2 => ?_)
  have h := sys_mount_before sys (some l) mc.1 (some "squashfs")
    (MS_MGC_VAL ||| MS_RDONLY ||| MS_NODEV ||| MS_NOSUID) w2
  split
  · rename_i heq; rw [heq] at h; exact h
  · rename_i heq; rw [heq] at h; exact h

theorem setup_base_before (sys : Sys) (root : String) (w : World) :
    w.Before (setup_base sys root w).world := by
  unfold setup_base
  refine Res.andThen_before w _ _ (make_fs_dir_before _ _ _ _) (fun d1 w1 => ?_)
  have h1 := sys_mount_before sys (some "proc") d1 (some "proc") (MS_MGC_VAL ||| MS_PRIVATE) w1
  split
  · rename_i heq; rw [heq] at h1; exact h1
  · rename_i w2 heq
    rw [heq] at h1
    refine World.before_trans h1 ?_
    refine Res.andThen_before w2 _ _ (make_fs_dir_before _ _ _ _) (fun d2 w3 => ?_)
    have h2 := sys_mount_before sys (some "/dev") d2 none
      (MS_MGC_VAL ||| MS_BIND ||| MS_NOSUID ||| MS_RDONLY) w3
    split
    · rename_i heq2; rw [heq2] at h2; exact h2
    · rename_i w4 heq2
      rw [heq2] at h2
      refine World.before_trans h2 ?_
      split
      · exact World.before_refl _
      · rename_i home _
        refine Res.andThen_before w4 _ _ (make_fs_dir_before _ _ _ _) (fun d3 w5 => ?_)
        have h3 := sys_mount_before sys (some home) d3 none
          (MS_MGC_VAL ||| MS_BIND ||| MS_NODEV ||| MS_NOSUID) w5
        split
        · rename_i heq3; rw [heq3] at h3; exact h3
        · rename_i heq3; rw [heq3] at h3; exact h3

theorem mount_images_before (sys : Sys) (ruid : Nat) (root : String) (images : List String)
    (c : Nat) (p : Proc) (w : World) :
    w.Before (mount_images sys ruid root images c p w).world := by
  induction images generalizing c p w with
  | nil => exact World.before_refl w
  | cons image rest ih =>
    unfold mount_images
    split
    split
    · exact World.before_refl w
    · refine Res.andThen_before w _ _ (mount_image_before _ _ _ _ _) (fun mc w1 => ?_)
      exact Res.andThen_before w1 _ _ (ih _ _ _) (fun _ w2 => World.before_refl w2)

theorem child_rest_before (sys : Sys) (base_os : String) (images : List String)
    (root : String) (ruid : Nat) (p : Proc) (w : World) :
    w.Before (child_rest sys base_os images root ruid p w).world := by
  unfold child_rest
  simp only []
  split
  · exact World.before_refl w
  · split
    · exact World.before_refl w
    · have h1 := sys_mount_before sys (some "tmpfs") root (some "tmpfs")
        (MS_MGC_VAL ||| MS_PRIVATE) w
      split
      · rename_i heq; rw [heq] at h1; exact h1
      · rename_i w1 heq
        rw [heq] at h1
        refine World.before_trans h1 ?_
        refine Res.andThen_before w1 _ _ (mount_images_before _ _ _ _ _ _ _) (fun r w2 => ?_)
        refine Res.andThen_before w2 _ _ (make_fs_dir_before _ _ _ _) (fun a w3 => ?_)
        refine Res.andThen_before w3 _ _ (setup_base_before _ _ _) (fun _ w4 => ?_)
        refine Res.andThen_before w4 _ _ (merge_dirs_before _ _ _ _ _) (fun _ w5 => ?_)
        have e1 := World.before_emit w5 (Event.other "chroot")
        have e2 := World.before_trans e1 (World.before_emit _ (Event.other "setgid"))
        have e3 := World.before_trans e2 (World.before_emit _ (Event.other "setuid"))
        have e4 := World.before_trans e3 (World.before_emit _ (Event.other "execl /bin/sh"))
        repeat' split
        all_goals first
          | exact World.before_refl w5
          | exact e1
          | exact e2
          | exact e3
          | exact e4

/-! ## The order of hardening and mounts in the child -/

/-- C9: whatever the system calls return, the calls the child logs start with
the no-new-privileges `prctl`, then (unless that one was fatal) the securebits
`prctl`, then (unless that one was fatal) the slave and recursive remount of
`/`; every other call, all other mounts included, comes after these three. -/
theorem child_hardens_then_remounts_root (sys : Sys) (base_os : String)
    (images : List String) (root : String) (ruid : Nat) (p : Proc) (w : World) :
    ∃ calls, (child sys base_os images root ruid p w).world.log = w.log ++ calls ∧
      (calls = [Event.prctl_no_new_privs] ∨
       calls = [Event.prctl_no_new_privs, Event.prctl_securebits_noroot] ∨
       ∃ later, calls = Event.prctl_no_new_privs :: Event.prctl_securebits_noroot ::
          Event.mount none "/" (some "none") (MS_SLAVE ||| MS_REC) :: later) := by
  unfold child
  simp only []
  split
  · exact ⟨_, rfl, Or.inl rfl⟩
  · split
    · refine ⟨[Event.prctl_no_new_privs, Event.prctl_securebits_noroot], ?_, Or.inr (Or.inl rfl)⟩
      simp [Res.world, World.emit]
    · split
      · refine ⟨[Event.prctl_no_new_privs, Event.prctl_securebits_noroot,
          Event.mount none "/" (some "none") (MS_SLAVE ||| MS_REC)], ?_,
          Or.inr (Or.inr ⟨[], rfl⟩)⟩
        rename_i w3 heq
        simp only [sys_mount, Prod.mk.injEq] at heq
        rw [← heq.2]
        simp [Res.world, World.emit]
      · rename_i w3 heq
        simp only [sys_mount, Prod.mk.injEq] at heq
        obtain ⟨l, hl⟩ := child_rest_before sys base_os images root ruid p w3
        refine ⟨Event.prctl_no_new_privs :: Event.prctl_securebits_noroot ::
          Event.mount none "/" (some "none") (MS_SLAVE ||| MS_REC) :: l, ?_,
          Or.inr (Or.inr ⟨l, rfl⟩)⟩
        rw [← hl, ← heq.2]
        simp [World.emit]

/-! ## Idempotence of the directory-tree builder -/

theorem World.lstat_append_of_some {w : World} {q : String} (x : String × DEntry)
    (h : (w.lstat q).isSome) :
    (World.lstat { w with dest := w.dest ++ [x] } q).isSome := by
  unfold World.lstat at *
  simp only [Option.isSome_map, List.find?_append] at *
  cases hf : List.find? (fun r => r.1 == q) w.dest with
  | none => rw [hf] at h; cases h
  | some v => simp

theorem World.mkdirE_ok_spec {w w1 : World} {path : String} {m : Nat}
    (h : w.mkdirE path m = Except.ok w1) :
    (w1.lstat (normPath path)).isSome ∧ ∀ q, (w.lstat q).isSome → (w1.lstat q).isSome := by
  unfold World.mkdirE at h
  simp only [] at h
  split at h
  · cases h
  · rename_i hnone
    split at h
    · cases h
    · split at h
      · cases h
        refine ⟨?_, fun q hq => World.lstat_append_of_some _ hq⟩
        unfold World.lstat at *
        simp only [Option.map_eq_none'] at hnone
        simp [List.find?_append, hnone]
      · cases h

theorem World.mkdirE_of_some {w : World} {path : String} (m : Nat)
    (h : (w.lstat (normPath path)).isSome) : w.mkdirE path m = Except.error EEXIST := by
  unfold World.mkdirE
  simp only []
  cases hl : w.lstat (normPath path) with
  | none => rw [hl] at h; cases h
  | some v => rfl

theorem World.mkdirE_eexist {w : World} {path : String} {m : Nat} {e : Int}
    (h : w.mkdirE path m = Except.error e) (he : ¬ e ≠ EEXIST) :
    (w.lstat (normPath path)).isSome := by
  unfold World.mkdirE at h
  simp only [] at h
  split at h
  · rename_i v hv; rw [hv]; rfl
  · split at h
    · cases h; exact absurd (by decide) he
    · split at h
      · cases h
      · cases h; exact absurd (by decide) he

theorem make_fs_dir_loop_mono (mode : Nat) (acc rest : List Char) (w w1 : World)
    (h : make_fs_dir_loop mode acc rest w = Res.ok () w1) :
    ∀ q, (w.lstat q).isSome → (w1.lstat q).isSome := by
  induction rest generalizing acc w with
  | nil =>
    unfold make_fs_dir_loop at h
    cases hm : w.mkdirE (String.mk acc) mode with
    | ok w2 =>
      rw [hm] at h
      cases h
      exact (World.mkdirE_ok_spec hm).2
    | error e =>
      rw [hm] at h
      simp only [] at h
      split at h
      · cases h
      · cases h; exact fun q hq => hq
  | cons c cs ih =>
    unfold make_fs_dir_loop at h
    split at h
    · cases hm : w.mkdirE (String.mk acc) mode with
      | ok w2 =>
        rw [hm] at h
        exact fun q hq => ih _ _ h q ((World.mkdirE_ok_spec hm).2 q hq)
      | error e =>
        rw [hm] at h
        simp only [] at h
        split at h
        · cases h
        · exact ih _ _ h
    · exact ih _ _ h

theorem make_fs_dir_loop_again (mode : Nat) (acc rest : List Char) (w w1 : World)
    (h : make_fs_dir_loop mode acc rest w = Res.ok () w1) (w2 : World)
    (h2 : ∀ q, (w1.lstat q).isSome → (w2.lstat q).isSome) :
    make_fs_dir_loop mode acc rest w2 = Res.ok () w2 := by
  induction rest generalizing acc w with
  | nil =>
    unfold make_fs_dir_loop at h
    have hex : (w1.lstat (normPath (String.mk acc))).isSome := by
      cases hm : w.mkdirE (String.mk acc) mode with
      | ok w3 =>
        rw [hm] at h
        cases h
        exact (World.mkdirE_ok_spec hm).1
      | error e =>
        rw [hm] at h
        simp only [] at h
        split at h
        · cases h
        · rename_i he
          cases h
          exact World.mkdirE_eexist hm he
    unfold make_fs_dir_loop
    rw [World.mkdirE_of_some mode (h2 _ hex)]
    rfl
  | cons c cs ih =>
    unfold make_fs_dir_loop at h
    unfold make_fs_dir_loop
    split at h
    · rename_i hc
      rw [if_pos hc]
      cases hm : w.mkdirE (String.mk acc) mode with
      | ok w3 =>
        rw [hm] at h
        have hex := make_fs_dir_loop_mono _ _ _ _ _ h _ (World.mkdirE_ok_spec hm).1
        rw [World.mkdirE_of_some mode (h2 _ hex)]
        exact ih _ _ h
      | error e =>
        rw [hm] at h
        simp only [] at h
        split at h
        · cases h
        · rename_i he
          have hex := make_fs_dir_loop_mono _ _ _ _ _ h _ (World.mkdirE_eexist hm he)
          rw [World.mkdirE_of_some mode (h2 _ hex)]
          exact ih _ _ h
    · rename_i hc
      rw [if_neg hc]
      exact ih _ _ h

/-- C8: when `make_fs_dir (root, dir, mode)` returns, a second call with the
same arguments on the file system it left returns too, with the same path
(`root`, a slash, `dir` without its leading slashes), and changes nothing. -/
theorem make_fs_dir_idempotent (root dir : String) (mode : Nat) (w w1 : World)
    (full : String) (h : make_fs_dir root dir mode w = Res.ok full w1) :
    make_fs_dir root dir mode w1 = Res.ok full w1 ∧
    full = root ++ "/" ++ skipSlashes dir := by
  unfold make_fs_dir at h
  simp only [] at h
  cases hl : make_fs_dir_loop mode (root.toList ++ ['/']) (skipSlashes dir).toList w with
  | ok a w2 =>
    rw [hl] at h
    simp only [Res.ok.injEq] at h
    obtain ⟨hfull, hw⟩ := h
    subst hw
    have h2 := make_fs_dir_loop_again _ _ _ _ _ hl w2 (fun q hq => hq)
    refine ⟨?_, ?_⟩
    · unfold make_fs_dir
      simp only []
      rw [h2, hfull]
    · rw [← hfull]
      simp [strconcat]
  | fatal msg w2 => rw [hl] at h; cases h
  | nofuel w2 => rw [hl] at h; cases h

/-- Witness for `make_fs_dir_idempotent`: the path `//home//me/` under the
scratch root `/tmp/r`. -/
theorem make_fs_dir_idempotent_witness :
    make_fs_dir "/tmp/r" "//home//me/" 0o755 scratch1
      = Res.ok "/tmp/r/home//me/" scratch2 ∧
    make_fs_dir "/tmp/r" "//home//me/" 0o755 scratch2
      = Res.ok "/tmp/r/home//me/" scratch2 ∧
    "/tmp/r/home//me/" = "/tmp/r" ++ "/" ++ skipSlashes "//home//me/" :=
  ⟨by decide, make_fs_dir_idempotent "/tmp/r" "//home//me/" 0o755 scratch1 scratch2
    "/tmp/r/home//me/" (by decide)⟩

/-! ## The rows the merge adds -/

theorem strconcat_some (a b c : String) :
    strconcat (some a) (some b) (some c) = a ++ b ++ c := by
  simp [strconcat]

theorem str_append_cancel (a b c : String) (h : a ++ b = a ++ c) : b = c := by
  have h1 := congrArg String.data h
  simp only [String.data_append] at h1
  exact String.ext (List.append_cancel_left h1)

theorem path_inj (root n m : String) (h : root ++ "/" ++ n = root ++ "/" ++ m) : n = m := by
  rw [String.append_assoc, String.append_assoc] at h
  exact str_append_cancel _ _ _ (str_append_cancel _ _ _ h)

theorem path_not_under (root n p rest : String) (hp : '/' ∉ p.toList)
    (h : root ++ "/" ++ p = root ++ "/" ++ n ++ "/" ++ rest) : False := by
  have h2 : p = n ++ "/" ++ rest := by
    apply str_append_cancel (root ++ "/")
    rw [h]
    simp only [String.append_assoc]
  apply hp
  rw [h2]
  simp

theorem World.lstat_none_iff (w : World) (q : String) :
    w.lstat q = none ↔ ∀ r ∈ w.dest, r.1 ≠ q := by
  unfold World.lstat
  simp [List.find?_eq_none]

theorem World.lstat_fresh (w : World) (q : String) (e : DEntry) (l : List Event)
    (h : w.lstat q = none) : World.lstat ⟨w.dest ++ [(q, e)], l⟩ q = some e := by
  unfold World.lstat at *
  simp only [Option.map_eq_none'] at h
  simp [List.find?_append, h]

theorem map_setOwner_fresh (w : World) (q : String) (e : DEntry) (u g : Nat)
    (h : w.lstat q = none) :
    (w.dest ++ [(q, e)]).map (World.setOwner u g q)
      = w.dest ++ [(q, { e with uid := u, gid := g })] := by
  rw [World.lstat_none_iff] at h
  rw [List.map_append]
  congr 1
  · conv => rhs; rw [← List.map_id w.dest]
    apply List.map_congr_left
    intro r hr
    simp [World.setOwner, h r hr]
  · simp [World.setOwner]

theorem map_setBound_fresh (w : World) (q : String) (e : DEntry) (src : String)
    (h : w.lstat q = none) :
    (w.dest ++ [(q, e)]).map (World.setBound src q)
      = w.dest ++ [(q, { e with bound := some src })] := by
  rw [World.lstat_none_iff] at h
  rw [List.map_append]
  congr 1
  · conv => rhs; rw [← List.map_id w.dest]
    apply List.map_congr_left
    intro r hr
    simp [World.setBound, h r hr]
  · simp [World.setBound]

theorem bind_file_reg (fs : SrcFS) (src dst : String) (st : Stat) (w : World)
    (h : w.lstat dst = none) (hreg : S_ISREG st.st_mode = true) :
    bind_file fs src dst st w
      = Res.ok () ⟨w.dest ++ [(dst, fileRow st src)],
          w.log ++ [Event.mount (some src) dst none bindFlags]⟩ := by
  unfold bind_file
  rw [if_pos hreg]
  simp only [World.creat, h, orFatal, World.lchown, World.lstat_fresh w dst _ _ h,
    map_setOwner_fresh w dst _ _ _ h, World.bindMount, map_setBound_fresh w dst _ _ h]
  rfl

theorem bind_file_dir (fs : SrcFS) (src dst : String) (st : Stat) (w : World)
    (h : w.lstat dst = none) (hreg : S_ISREG st.st_mode = false)
    (hdir : S_ISDIR st.st_mode = true) :
    bind_file fs src dst st w
      = Res.ok () ⟨w.dest ++ [(dst, dirRow st (some src))],
          w.log ++ [Event.mount (some src) dst none bindFlags]⟩ := by
  unfold bind_file
  rw [if_neg (by simp [hreg]), if_pos hdir]
  simp only [World.mkdir, World.create, h, orFatal, World.lchown,
    World.lstat_fresh w dst _ _ h,
    map_setOwner_fresh w dst _ _ _ h, World.bindMount, map_setBound_fresh w dst _ _ h]
  rfl

theorem bind_file_lnk (fs : SrcFS) (src dst : String) (st : Stat) (w : World)
    (buf : String)
    (h : w.lstat dst = none) (hreg : S_ISREG st.st_mode = false)
    (hdir : S_ISDIR st.st_mode = false) (hlnk : S_ISLNK st.st_mode = true)
    (hbuf : fs.readlink src = some buf) (hlen : buf.utf8ByteSize < 1024) :
    bind_file fs src dst st w
      = Res.ok () ⟨w.dest ++ [(dst, lnkRow st buf)],
          w.log ++ [Event.chmod dst (st.st_mode &&& 0o777)
            (World.landing fs ⟨w.dest ++ [(dst, ⟨DKind.symlink, 0o777, 0, 0, some buf, none⟩)],
              w.log⟩ dst)]⟩ := by
  unfold bind_file
  rw [if_neg (by simp [hreg]), if_neg (by simp [hdir]), if_pos hlnk]
  simp only [hbuf]
  rw [if_neg (by omega)]
  simp only [World.symlink, World.create, h, orFatal, World.lchown, World.chmod, World.emit,
    World.lstat_fresh w dst _ _ h, map_setOwner_fresh w dst _ _ _ h]
  rfl

theorem World.grows_refl (root : String) (w : World) : World.Grows root w w :=
  ⟨[], by simp, by simp⟩

theorem World.grows_trans {root : String} {a b c : World} (h1 : World.Grows root a b)
    (h2 : World.Grows root b c) : World.Grows root a c := by
  obtain ⟨l1, e1, u1⟩ := h1
  obtain ⟨l2, e2, u2⟩ := h2
  refine ⟨l1 ++ l2, by rw [e2, e1, List.append_assoc], ?_⟩
  intro x hx
  rcases List.mem_append.mp hx with h | h
  · exact u1 x h
  · exact u2 x h

theorem under_step (root n q : String) (h : Under (root ++ "/" ++ n) q) : Under root q := by
  obtain ⟨rest, hr⟩ := h
  exact ⟨n ++ "/" ++ rest, by rw [hr]; simp only [String.append_assoc]⟩

/-- The rows one entry adds: the row of the entry and rows below it. -/
theorem bind_file_rows (fs : SrcFS) (src dst : String) (st : Stat) (w : World)
    (h : w.lstat dst = none) :
    ∃ added, (bind_file fs src dst st w).world.dest = w.dest ++ added ∧
      ∀ x ∈ added, x.1 = dst := by
  cases hreg : S_ISREG st.st_mode with
  | true => exact ⟨_, by rw [bind_file_reg fs src dst st w h hreg]; rfl, by simp⟩
  | false =>
    cases hdir : S_ISDIR st.st_mode with
    | true => exact ⟨_, by rw [bind_file_dir fs src dst st w h hreg hdir]; rfl, by simp⟩
    | false =>
      cases hlnk : S_ISLNK st.st_mode with
      | false =>
        refine ⟨[], ?_, by simp⟩
        simp [bind_file, hreg, hdir, hlnk, Res.world]
      | true =>
        cases hbuf : fs.readlink src with
        | none =>
          refine ⟨[], ?_, by simp⟩
          simp [bind_file, hreg, hdir, hlnk, hbuf, Res.world]
        | some buf =>
          by_cases hlen : buf.utf8ByteSize < 1024
          · exact ⟨_, by rw [bind_file_lnk fs src dst st w buf h hreg hdir hlnk hbuf hlen]; rfl,
              by simp⟩
          · refine ⟨[], ?_, by simp⟩
            have hge : buf.utf8ByteSize ≥ 1024 := by omega
            simp [bind_file, hreg, hdir, hlnk, hbuf, Res.world, hge]

theorem merge_entry_rows (fs : SrcFS)
    (recur : String → List (Option String) → World → Res Unit)
    (hrec : ∀ r d (w : World), World.Grows r w (recur r d w).world)
    (root : String) (dirs : List (Option String)) (i : Nat) (di name : String) (w : World) :
    ∃ added, (merge_entry fs recur root dirs i di name w).world.dest = w.dest ++ added ∧
      ∀ x ∈ added, x.1 = root ++ "/" ++ name ∨ Under (root ++ "/" ++ name) x.1 := by
  unfold merge_entry
  simp only [strconcat_some]
  split
  · exact ⟨[], by simp [Res.world], by simp⟩
  · split
    · exact ⟨[], by simp [Res.world], by simp⟩
    · rename_i hnone
      split
      · exact ⟨[], by simp [Res.world], by simp⟩
      · rename_i st hst
        split
        · exact ⟨[], by simp [Res.world, World.emit], by simp⟩
        · split
          · obtain ⟨added, h1, h2⟩ := bind_file_rows fs (di ++ "/" ++ name)
              (root ++ "/" ++ name) st w hnone
            exact ⟨added, h1, fun x hx => Or.inl (h2 x hx)⟩
          · simp only [World.mkdir, World.create, hnone, orFatal, World.lchown,
              World.lstat_fresh w _ _ _ hnone, map_setOwner_fresh w _ _ _ _ hnone]
            obtain ⟨added, h1, h2⟩ := hrec (root ++ "/" ++ name)
              (dirs.map (fun dj => get_subdir fs dj name))
              ⟨w.dest ++ [(root ++ "/" ++ name,
                { kind := DKind.dir, mode := st.st_mode &&& 0o777, uid := st.st_uid,
                  gid := st.st_gid, target := none, bound := none })], w.log⟩
            refine ⟨(root ++ "/" ++ name, dirRow st none) :: added, ?_, ?_⟩
            · rw [h1]; simp [dirRow]
            · intro x hx
              rcases List.mem_cons.mp hx with h | h
              · left; rw [h]
              · right; exact h2 x h
          · exact ⟨[], by simp [Res.world], by simp⟩

theorem merge_entry_grows (fs : SrcFS)
    (recur : String → List (Option String) → World → Res Unit)
    (hrec : ∀ r d (w : World), World.Grows r w (recur r d w).world)
    (root : String) (dirs : List (Option String)) (i : Nat) (di name : String) (w : World) :
    World.Grows root w (merge_entry fs recur root dirs i di name w).world := by
  obtain ⟨added, h1, h2⟩ := merge_entry_rows fs recur hrec root dirs i di name w
  refine ⟨added, h1, fun x hx => ?_⟩
  rcases h2 x hx with h | h
  · exact ⟨name, h⟩
  · exact under_step root name _ h

/-- A property of worlds that every turn of the inner loop keeps is kept by the loop. -/
theorem merge_entries_inv (Inv : World → Prop) (fs : SrcFS)
    (recur : String → List (Option String) → World → Res Unit)
    (root : String) (dirs : List (Option String)) (i : Nat) (di : String)
    (names : List String)
    (hstep : ∀ n ∈ names, ∀ w, Inv w → Inv (merge_entry fs recur root dirs i di n w).world)
    (w : World) (hw : Inv w) :
    Inv (merge_entries fs recur root dirs i di names w).world := by
  induction names generalizing w with
  | nil => exact hw
  | cons n rest ih =>
    unfold merge_entries
    have h1 := hstep n (List.mem_cons_self _ _) w hw
    cases hr : merge_entry fs recur root dirs i di n w with
    | ok a w1 =>
      rw [hr] at h1
      exact ih (fun m hm => hstep m (List.mem_cons_of_mem _ hm)) w1 h1
    | fatal msg w1 => rw [hr] at h1; exact h1
    | nofuel w1 => rw [hr] at h1; exact h1

/-- A property of worlds that every turn of the inner loop keeps, for every
layer, is kept by the outer loop. -/
theorem merge_layers_inv (Inv : World → Prop) (fs : SrcFS)
    (recur : String → List (Option String) → World → Res Unit)
    (root : String) (dirs : List (Option String))
    (hstep : ∀ j dj names, dirs[j]? = some (some dj) → fs.readdir dj = some names →
      ∀ n ∈ names, ∀ w, Inv w → Inv (merge_entry fs recur root dirs j dj n w).world)
    (i : Nat) (todo : List (Option String)) (htodo : todo = dirs.drop i)
    (w : World) (hw : Inv w) :
    Inv (merge_layers fs recur root dirs i todo w).world := by
  induction todo generalizing w i with
  | nil => exact hw
  | cons d rest ih =>
    have hi : dirs[i]? = some d := by
      have := congrArg List.head? htodo
      simp only [List.head?_cons, List.head?_drop] at this
      exact this.symm
    have hrest : rest = dirs.drop (i + 1) := by
      have := congrArg List.tail htodo
      simpa using this
    unfold merge_layers
    cases d with
    | none => exact ih (i + 1) hrest w hw
    | some di =>
      simp only []
      cases hd : fs.readdir di with
      | none => exact ih (i + 1) hrest w hw
      | some names =>
        simp only []
        have h1 := merge_entries_inv Inv fs recur root dirs i di names
          (hstep i di names hi hd) w hw
        cases hr : merge_entries fs recur root dirs i di names w with
        | ok a w1 =>
          rw [hr] at h1
          exact ih (i + 1) hrest w1 h1
        | fatal msg w1 => rw [hr] at h1; exact h1
        | nofuel w1 => rw [hr] at h1; exact h1

theorem merge_dirs_grows (fs : SrcFS) (fuel : Nat) (root : String)
    (dirs : List (Option String)) (w : World) :
    World.Grows root w (merge_dirs fs fuel root dirs w).world := by
  induction fuel generalizing root dirs w with
  | zero => exact World.grows_refl root w
  | succ n ih =>
    unfold merge_dirs
    apply merge_layers_inv (fun w1 => World.Grows root w w1) fs _ root dirs _ 0 dirs (by simp)
      w (World.grows_refl root w)
    intro j dj names _ _ m _ w1 hw1
    exact World.grows_trans hw1 (merge_entry_grows fs _ (fun r d w2 => ih r d w2) root dirs j dj m w1)

/-! ## What `has_conflict` answers -/

theorem has_conflict_loop_sticky (fs : SrcFS) (name : String) (ex k : Nat)
    (todo : List (Option String)) :
    has_conflict_loop fs name ex k todo (true, false) = (true, false) := by
  induction todo generalizing k with
  | nil => rfl
  | cons d rest ih =>
    unfold has_conflict_loop
    cases d with
    | none => exact ih _
    | some di =>
      simp only []
      split
      · exact ih _
      · split
        · exact ih _
        · simp only [Bool.if_false_right, Bool.and_false]
          exact ih _

theorem has_conflict_loop_nondir (fs : SrcFS) (name : String) (ex : Nat)
    (todo : List (Option String)) (k : Nat) (acc : Bool × Bool) (j : Nat) (d : String)
    (st : Stat) (hj : todo[j]? = some (some d)) (hne : k + j ≠ ex)
    (hst : fs.lstat (strconcat (some d) (some "/") (some name)) = some st)
    (hnd : S_ISDIR st.st_mode = false) :
    has_conflict_loop fs name ex k todo acc = (true, false) := by
  induction todo generalizing k acc j with
  | nil => simp at hj
  | cons d0 rest ih =>
    cases j with
    | zero =>
      simp only [List.getElem?_cons_zero, Option.some.injEq] at hj
      subst hj
      unfold has_conflict_loop
      simp only []
      rw [if_neg (by simpa using hne), hst]
      simp only [hnd, Bool.not_false, if_true]
      exact has_conflict_loop_sticky fs name ex _ rest
    | succ j0 =>
      simp only [List.getElem?_cons_succ] at hj
      have hne2 : k + 1 + j0 ≠ ex := by omega
      unfold has_conflict_loop
      cases d0 with
      | none => exact ih _ _ _ hj hne2
      | some d1 =>
        simp only []
        split
        · exact ih _ _ _ hj hne2
        · split
          · exact ih _ _ _ hj hne2
          · exact ih _ _ _ hj hne2

/-- Another layer holding the name as something that is not a directory makes
the answer `NON_DIR_CONFLICT`. -/
theorem has_conflict_nondir (fs : SrcFS) (dirs : List (Option String)) (name : String)
    (ex j : Nat) (d : String) (st : Stat) (hj : dirs[j]? = some (some d)) (hne : j ≠ ex)
    (hst : fs.lstat (strconcat (some d) (some "/") (some name)) = some st)
    (hnd : S_ISDIR st.st_mode = false) :
    has_conflict fs dirs name ex = NON_DIR_CONFLICT := by
  unfold has_conflict
  rw [has_conflict_loop_nondir fs name ex dirs 0 (false, true) j d st hj (by omega) hst hnd]
  rfl

theorem special_not_dir (m : Nat) (h : isSpecial m = true) : S_ISDIR m = false := by
  unfold isSpecial S_ISCHR S_ISBLK S_ISFIFO S_ISSOCK at h
  unfold S_ISDIR
  generalize m &&& S_IFMT = x at *
  simp only [Bool.or_eq_true, beq_iff_eq] at h
  rcases h with ((h | h) | h) | h <;> (subst h; decide)

theorem reg_not_dir (m : Nat) (h : S_ISREG m = true) : S_ISDIR m = false := by
  unfold S_ISREG at h
  unfold S_ISDIR
  generalize m &&& S_IFMT = x at *
  simp only [beq_iff_eq] at h
  subst h; decide

theorem reg_not_special (m : Nat) (h : S_ISREG m = true) : isSpecial m = false := by
  unfold S_ISREG at h
  unfold isSpecial S_ISCHR S_ISBLK S_ISFIFO S_ISSOCK
  generalize m &&& S_IFMT = x at *
  simp only [beq_iff_eq] at h
  subst h; decide

/-! ## Names the merge leaves alone -/

theorem World.lstat_append_none (w : World) (added : List (String × DEntry)) (l : List Event)
    (q : String) (h : w.lstat q = none) (ha : ∀ x ∈ added, x.1 ≠ q) :
    World.lstat ⟨w.dest ++ added, l⟩ q = none := by
  rw [World.lstat_none_iff] at *
  intro r hr
  rcases List.mem_append.mp hr with h1 | h1
  · exact h r h1
  · exact ha r h1

theorem World.lstat_of_dest_eq (w w1 : World) (q : String) (h : w1.dest = w.dest) :
    w1.lstat q = w.lstat q := by
  unfold World.lstat
  rw [h]

/-- The visit of an entry named `name` creates nothing at `root/p` for another
name `p` without a slash. -/
theorem merge_entry_keeps_none (fs : SrcFS)
    (recur : String → List (Option String) → World → Res Unit)
    (hrec : ∀ r d (w : World), World.Grows r w (recur r d w).world)
    (root : String) (dirs : List (Option String)) (i : Nat) (di name p : String)
    (hp : '/' ∉ p.toList) (hne : name ≠ p) (w : World)
    (hw : w.lstat (root ++ "/" ++ p) = none) :
    (merge_entry fs recur root dirs i di name w).world.lstat (root ++ "/" ++ p) = none := by
  obtain ⟨added, h1, h2⟩ := merge_entry_rows fs recur hrec root dirs i di name w
  have h3 := World.lstat_append_none w added
    (merge_entry fs recur root dirs i di name w).world.log (root ++ "/" ++ p) hw (by
      intro x hx heq
      rcases h2 x hx with h | ⟨rest, h⟩
      · rw [h] at heq
        exact hne (path_inj root name p heq)
      · rw [h] at heq
        exact path_not_under root name p rest hp heq.symm)
  rw [← h3]
  exact World.lstat_of_dest_eq _ _ _ h1

/-! ## Device, FIFO and socket entries -/

theorem merge_entry_special_name (fs : SrcFS)
    (recur : String → List (Option String) → World → Res Unit)
    (root : String) (dirs : List (Option String)) (i : Nat) (d p : String) (st : Stat)
    (hi : dirs[i]? = some (some d))
    (hst : fs.lstat (strconcat (some d) (some "/") (some p)) = some st)
    (hsp : isSpecial st.st_mode = true)
    (j : Nat) (dj : String) (hj : dirs[j]? = some (some dj)) (w : World)
    (hw : w.lstat (strconcat (some root) (some "/") (some p)) = none) :
    (merge_entry fs recur root dirs j dj p w).world.lstat
      (strconcat (some root) (some "/") (some p)) = none := by
  unfold merge_entry
  simp only []
  split
  · exact hw
  · split
    · exact hw
    · split
      · exact hw
      · rename_i st1 hst1
        split
        · exact hw
        · rename_i hns
          have hji : i ≠ j := by
            intro hij
            subst hij
            rw [hi] at hj
            simp only [Option.some.injEq] at hj
            subst hj
            obtain ⟨st0, h0, hre⟩ := World.lstatSrc_inv fs w _ st1 hst1
            rw [hst] at h0
            simp only [Option.some.injEq] at h0
            subst h0
            subst hre
            rw [World.special_restat] at hns
            exact hns hsp
          rw [has_conflict_nondir fs dirs p j i d st hi hji hst (special_not_dir _ hsp)]
          exact hw

/-- C6 (amended): a device, FIFO or socket entry `p` that lies directly in a
directory `merge_dirs` walks (layer `i` of a call, at any level of the
recursion) is skipped with the warning when it is visited, and the call, however
it ends, leaves no entry `p` in its destination directory. -/
theorem special_entry_skipped (fs : SrcFS) (fuel : Nat) (root : String)
    (dirs : List (Option String)) (i : Nat) (d p : String) (st : Stat) (w : World)
    (hi : dirs[i]? = some (some d))
    (hst : fs.lstat (strconcat (some d) (some "/") (some p)) = some st)
    (hsp : isSpecial st.st_mode = true)
    (hp : '/' ∉ p.toList) (hdot : p ≠ ".") (hdotdot : p ≠ "..")
    (hw : w.lstat (strconcat (some root) (some "/") (some p)) = none) :
    merge_entry fs (merge_dirs fs fuel) root dirs i d p w
      = Res.ok () (w.emit (Event.warning ("WARNING: ignoring special file "
          ++ strconcat (some d) (some "/") (some p) ++ "\n"))) ∧
    (merge_dirs fs (fuel + 1) root dirs w).world.lstat
      (strconcat (some root) (some "/") (some p)) = none := by
  refine ⟨?_, ?_⟩
  · unfold merge_entry
    simp only []
    rw [if_neg (by simp [hdot, hdotdot]), hw]
    simp only [World.lstatSrc_some fs w _ st hst]
    rw [if_pos (by rw [World.special_restat]; simpa [isSpecial] using hsp)]
  · unfold merge_dirs
    apply merge_layers_inv
      (fun w1 => w1.lstat (strconcat (some root) (some "/") (some p)) = none) fs _ root dirs _
      0 dirs (by simp) w hw
    intro j dj names hj _ n _ w1 hw1
    by_cases hn : n = p
    · subst hn
      exact merge_entry_special_name fs _ root dirs i d n st hi hst hsp j dj hj w1 hw1
    · rw [strconcat_some] at hw1 ⊢
      exact merge_entry_keeps_none fs _ (fun r d2 w2 => merge_dirs_grows fs fuel r d2 w2)
        root dirs j dj n p hp hn w1 hw1

/-- Witness for `special_entry_skipped`: the layer `/A` with the named pipe `p`. -/
theorem special_entry_skipped_witness :
    merge_entry fsPipe (merge_dirs fsPipe 4) "/m" [some "/A"] 0 "/A" "p" World.empty
      = Res.ok () (World.empty.emit (Event.warning ("WARNING: ignoring special file "
          ++ strconcat (some "/A") (some "/") (some "p") ++ "\n"))) ∧
    (merge_dirs fsPipe (4 + 1) "/m" [some "/A"] World.empty).world.lstat
      (strconcat (some "/m") (some "/") (some "p")) = none :=
  special_entry_skipped fsPipe 4 "/m" [some "/A"] 0 "/A" "p" fifoStat World.empty
    (by decide) (by decide) (by decide) (by decide) (by decide) (by decide) (by decide)

/-- C6 (as stated, refuted): a named pipe below a directory that one layer
only holds is in the merged tree, behind the bind mount of that directory. -/
theorem pipe_below_bound_dir_is_visible :
    merge_dirs fsPipeInDir 5 "/m" [some "/A"] World.empty
      = Res.ok () ⟨[("/m/d", dirRow dirStat (some "/A/d"))],
          [Event.mount (some "/A/d") "/m/d" none bindFlags]⟩ ∧
    fsPipeInDir.lstat "/A/d/p" = some fifoStat ∧
    isSpecial fifoStat.st_mode = true ∧
    mergedHas fsPipeInDir
      (merge_dirs fsPipeInDir 5 "/m" [some "/A"] World.empty).world "/m" ["d", "p"] = true := by
  decide

/-! ## Two regular files of one name -/

theorem merge_entries_stops (fs : SrcFS)
    (recur : String → List (Option String) → World → Res Unit)
    (root : String) (dirs : List (Option String)) (i : Nat) (di : String)
    (Inv : World → Prop) (y : String) (names : List String) (hy : y ∈ names)
    (hkeep : ∀ n, n ≠ y → ∀ w, Inv w → Inv (merge_entry fs recur root dirs i di n w).world)
    (hstop : ∀ w, Inv w → ∀ w1, merge_entry fs recur root dirs i di y w ≠ Res.ok () w1)
    (w : World) (hw : Inv w) :
    ∀ w1, merge_entries fs recur root dirs i di names w ≠ Res.ok () w1 := by
  induction names generalizing w with
  | nil => simp at hy
  | cons n rest ih =>
    intro w1
    unfold merge_entries
    by_cases hn : n = y
    · subst hn
      cases hr : merge_entry fs recur root dirs i di n w with
      | ok a w2 => exact absurd hr (hstop w hw w2)
      | fatal msg w2 => simp
      | nofuel w2 => simp
    · have hy2 : y ∈ rest := by
        rcases List.mem_cons.mp hy with h | h
        · exact absurd h.symm hn
        · exact h
      have h1 := hkeep n hn w hw
      cases hr : merge_entry fs recur root dirs i di n w with
      | ok a w2 =>
        rw [hr] at h1
        exact ih hy2 w2 h1 w1
      | fatal msg w2 => simp
      | nofuel w2 => simp

/-- When both of two layers hold a regular file `y`, `merge_dirs` does not
return normally, whatever the recursion budget, and the destination has no
entry `y` when it stops. -/
theorem same_named_files_never_ok (fs : SrcFS) (fuel : Nat) (root A B y : String)
    (names : List String) (sa sb : Stat) (w : World)
    (hA : fs.readdir A = some names) (hy : y ∈ names)
    (hdot : y ≠ ".") (hdotdot : y ≠ "..") (hp : '/' ∉ y.toList)
    (hsa : fs.lstat (strconcat (some A) (some "/") (some y)) = some sa)
    (hra : S_ISREG sa.st_mode = true)
    (hsb : fs.lstat (strconcat (some B) (some "/") (some y)) = some sb)
    (hrb : S_ISREG sb.st_mode = true)
    (hw : w.lstat (strconcat (some root) (some "/") (some y)) = none) :
    (∀ w1, merge_dirs fs (fuel + 1) root [some A, some B] w ≠ Res.ok () w1) ∧
    (merge_dirs fs (fuel + 1) root [some A, some B] w).world.lstat
      (strconcat (some root) (some "/") (some y)) = none := by
  have hgrow := fun r d2 w2 => merge_dirs_grows fs fuel r d2 w2
  have hstopA : ∀ w0, w0.lstat (strconcat (some root) (some "/") (some y)) = none →
      merge_entry fs (merge_dirs fs fuel) root [some A, some B] 0 A y w0
        = Res.fatal "Filename conflicts, refusing to mount\n" w0 := by
    intro w0 hw0
    unfold merge_entry
    simp only []
    rw [if_neg (by simp [hdot, hdotdot]), hw0]
    simp only [World.lstatSrc_some fs w0 _ sa hsa]
    have hns := reg_not_special _ hra
    rw [if_neg (by rw [World.special_restat]; simpa [isSpecial] using hns)]
    rw [has_conflict_nondir fs [some A, some B] y 0 1 B sb rfl (by decide) hsb
      (reg_not_dir _ hrb)]
  have hkeep : ∀ j dj n, n ≠ y → ∀ w0,
      w0.lstat (strconcat (some root) (some "/") (some y)) = none →
      (merge_entry fs (merge_dirs fs fuel) root [some A, some B] j dj n w0).world.lstat
        (strconcat (some root) (some "/") (some y)) = none := by
    intro j dj n hn w0 hw0
    rw [strconcat_some] at hw0 ⊢
    exact merge_entry_keeps_none fs _ hgrow root _ j dj n y hp hn w0 hw0
  refine ⟨?_, ?_⟩
  · intro w1
    unfold merge_dirs merge_layers
    simp only [hA]
    have hno := merge_entries_stops fs (merge_dirs fs fuel) root [some A, some B] 0 A
      (fun w0 => w0.lstat (strconcat (some root) (some "/") (some y)) = none) y names hy
      (fun n hn w0 hw0 => hkeep 0 A n hn w0 hw0)
      (fun w0 hw0 w2 => by rw [hstopA w0 hw0]; simp) w hw
    cases hr : merge_entries fs (merge_dirs fs fuel) root [some A, some B] 0 A names w with
    | ok a w2 => exact absurd hr (hno w2)
    | fatal msg w2 => simp
    | nofuel w2 => simp
  · unfold merge_dirs
    apply merge_layers_inv
      (fun w1 => w1.lstat (strconcat (some root) (some "/") (some y)) = none) fs _ root _ _
      0 _ (by simp) w hw
    intro j dj names2 hj _ n _ w1 hw1
    by_cases hn : n = y
    · subst hn
      -- the visit of `y` itself: in layer 0 it is the conflict exit, in layer 1 too
      have hj2 : j = 0 ∨ j = 1 := by
        rcases j with _ | _ | j
        · left; rfl
        · right; rfl
        · simp at hj
      rcases hj2 with h0 | h1
      · subst h0
        simp only [List.getElem?_cons_zero, Option.some.injEq] at hj
        subst hj
        rw [hstopA w1 hw1]
        exact hw1
      · subst h1
        simp only [List.getElem?_cons_succ, List.getElem?_cons_zero, Option.some.injEq] at hj
        subst hj
        unfold merge_entry
        simp only []
        rw [if_neg (by simp [hdot, hdotdot]), hw1]
        simp only [World.lstatSrc_some fs w1 _ sb hsb]
        have hns := reg_not_special _ hrb
        rw [if_neg (by rw [World.special_restat]; simpa [isSpecial] using hns)]
        rw [has_conflict_nondir fs [some A, some B] n 1 0 A sa rfl (by decide) hsa
          (reg_not_dir _ hra)]
        exact hw1
    · exact hkeep j dj n hn w1 hw1

/-! ## Layers with disjoint names -/

theorem dir_not_reg (m : Nat) (h : S_ISDIR m = true) : S_ISREG m = false := by
  unfold S_ISDIR at h
  unfold S_ISREG
  generalize m &&& S_IFMT = x at *
  simp only [beq_iff_eq] at h
  subst h; decide

theorem dir_not_special (m : Nat) (h : S_ISDIR m = true) : isSpecial m = false := by
  unfold S_ISDIR at h
  unfold isSpecial S_ISCHR S_ISBLK S_ISFIFO S_ISSOCK
  generalize m &&& S_IFMT = x at *
  simp only [beq_iff_eq] at h
  subst h; decide

theorem lnk_not_reg (m : Nat) (h : S_ISLNK m = true) : S_ISREG m = false := by
  unfold S_ISLNK at h
  unfold S_ISREG
  generalize m &&& S_IFMT = x at *
  simp only [beq_iff_eq] at h
  subst h; decide

theorem lnk_not_dir (m : Nat) (h : S_ISLNK m = true) : S_ISDIR m = false := by
  unfold S_ISLNK at h
  unfold S_ISDIR
  generalize m &&& S_IFMT = x at *
  simp only [beq_iff_eq] at h
  subst h; decide

theorem lnk_not_special (m : Nat) (h : S_ISLNK m = true) : isSpecial m = false := by
  unfold S_ISLNK at h
  unfold isSpecial S_ISCHR S_ISBLK S_ISFIFO S_ISSOCK
  generalize m &&& S_IFMT = x at *
  simp only [beq_iff_eq] at h
  subst h; decide

theorem World.lstat_append_some (w : World) (added : List (String × DEntry))
    (l : List Event) (q : String) (h : (w.lstat q).isSome) :
    (World.lstat ⟨w.dest ++ added, l⟩ q).isSome := by
  unfold World.lstat at *
  simp only [Option.isSome_map, List.find?_append] at *
  cases hf : List.find? (fun r => r.1 == q) w.dest with
  | none => rw [hf] at h; cases h
  | some v => simp

theorem reg_not_lnk (m : Nat) (h : S_ISREG m = true) : S_ISLNK m = false := by
  unfold S_ISREG at h
  unfold S_ISLNK
  generalize m &&& S_IFMT = x at *
  simp only [beq_iff_eq] at h
  subst h; decide

theorem dir_not_lnk (m : Nat) (h : S_ISDIR m = true) : S_ISLNK m = false := by
  unfold S_ISDIR at h
  unfold S_ISLNK
  generalize m &&& S_IFMT = x at *
  simp only [beq_iff_eq] at h
  subst h; decide

set_option maxRecDepth 100000

theorem list_split_unique {α : Type} (c : α) (l1 l2 r1 r2 : List α)
    (h1 : c ∉ l1) (h2 : c ∉ l2) (h : l1 ++ c :: r1 = l2 ++ c :: r2) : l1 = l2 := by
  induction l1 generalizing l2 with
  | nil =>
    cases l2 with
    | nil => rfl
    | cons b l2 =>
      simp only [List.nil_append, List.cons_append, List.cons.injEq] at h
      exact absurd (by rw [← h.1]; exact List.mem_cons_self _ _) h2
  | cons a l1 ih =>
    cases l2 with
    | nil =>
      simp only [List.nil_append, List.cons_append, List.cons.injEq] at h
      exact absurd (by rw [h.1]; exact List.mem_cons_self _ _) h1
    | cons b l2 =>
      simp only [List.cons_append, List.cons.injEq] at h
      rw [h.1, ih l2 (fun hc => h1 (List.mem_cons_of_mem _ hc))
        (fun hc => h2 (List.mem_cons_of_mem _ hc)) h.2]

theorem name_split_unique (n m r1 r2 : String) (hn : '/' ∉ n.toList) (hm : '/' ∉ m.toList)
    (h : n ++ "/" ++ r1 = m ++ "/" ++ r2) : n = m := by
  have h1 := congrArg String.data h
  simp only [String.data_append] at h1
  have h2 : n.data ++ '/' :: r1.data = m.data ++ '/' :: r2.data := by
    simpa using h1
  exact String.ext (list_split_unique '/' _ _ _ _ hn hm h2)

theorem not_under_self (q : String) : ¬ Under q q := by
  rintro ⟨rest, h⟩
  have h1 := congrArg String.length h
  simp only [String.length_append] at h1
  have : ("/" : String).length = 1 := by decide
  omega

theorem atName_under (root n q : String) (h : AtName root n q) : Under root q := by
  rcases h with h | h
  · exact ⟨n, h⟩
  · exact under_step root n q h

/-- Two different names of one directory have no path in common. -/
theorem atName_sep (root n m q : String) (hn : '/' ∉ n.toList) (hm : '/' ∉ m.toList)
    (hne : n ≠ m) (h1 : AtName root n q) (h2 : AtName root m q) : False := by
  rcases h1 with h1 | ⟨r1, h1⟩ <;> rcases h2 with h2 | ⟨r2, h2⟩
  · rw [h1] at h2
    exact hne (path_inj root n m h2)
  · rw [h1] at h2
    exact path_not_under root m n r2 hn h2
  · rw [h2] at h1
    exact path_not_under root n m r1 hm h1
  · rw [h1] at h2
    have h3 : n ++ "/" ++ r1 = m ++ "/" ++ r2 := by
      apply str_append_cancel (root ++ "/")
      simpa only [String.append_assoc] using h2
    exact hne (name_split_unique n m r1 r2 hn hm h3)

theorem World.lstat_append_eq (w : World) (added : List (String × DEntry)) (l : List Event)
    (q : String) (ha : ∀ x ∈ added, x.1 ≠ q) :
    World.lstat ⟨w.dest ++ added, l⟩ q = w.lstat q := by
  unfold World.lstat
  simp only [List.find?_append]
  have : List.find? (fun r => r.1 == q) added = none := by
    rw [List.find?_eq_none]
    intro x hx
    simpa using ha x hx
  rw [this]
  simp

theorem World.lstat_eq_of_dest (w1 w : World) (added : List (String × DEntry)) (q : String)
    (h : w1.dest = w.dest ++ added) (ha : ∀ x ∈ added, x.1 ≠ q) :
    w1.lstat q = w.lstat q := by
  rw [← World.lstat_append_eq w added w1.log q ha]
  exact World.lstat_of_dest_eq _ _ _ h

/-- The union below `r` only depends on the rows below `r`. -/
theorem unionOf_stable (fs : SrcFS) (w1 w2 : World) (k : Nat) (r A B : String)
    (h : ∀ q, Under r q → w2.lstat q = w1.lstat q) (hu : UnionOf fs w1 k r A B) :
    UnionOf fs w2 k r A B := by
  induction k generalizing r A B with
  | zero => exact hu
  | succ k ih =>
    intro na nb hA hB n hn
    have hq : w2.lstat (strconcat (some r) (some "/") (some n))
        = w1.lstat (strconcat (some r) (some "/") (some n)) :=
      h _ ⟨n, strconcat_some r "/" n⟩
    obtain ⟨c1, c2, c3, c4⟩ := hu na nb hA hB n hn
    refine ⟨?_, ?_, ?_, ?_⟩
    · intro h1 h2
      obtain ⟨st, e, e1, e2, e3⟩ := c1 h1 h2
      exact ⟨st, e, e1, by rw [hq]; exact e2, e3⟩
    · intro h1 h2
      obtain ⟨st, e, e1, e2, e3⟩ := c2 h1 h2
      exact ⟨st, e, e1, by rw [hq]; exact e2, e3⟩
    · intro h1 h2
      obtain ⟨⟨st, e, e1, e2, e3⟩, below⟩ := c3 h1 h2
      refine ⟨⟨st, e, e1, by rw [hq]; exact e2, e3⟩, ?_⟩
      apply ih _ _ _ _ below
      intro q hq2
      rw [strconcat_some] at hq2
      exact h q (under_step r n q hq2)
    · intro h1 h2
      rw [hq]
      exact c4 h1 h2

theorem done_stable (fs : SrcFS) (w1 w2 : World) (k : Nat) (root A B : String)
    (na nb : List String) (n : String)
    (h : ∀ q, AtName root n q → w2.lstat q = w1.lstat q)
    (hd : Done fs w1 k root A B na nb n) : Done fs w2 k root A B na nb n := by
  have hq : w2.lstat (strconcat (some root) (some "/") (some n))
      = w1.lstat (strconcat (some root) (some "/") (some n)) :=
    h _ (Or.inl (strconcat_some root "/" n))
  obtain ⟨c1, c2, c3, c4⟩ := hd
  refine ⟨?_, ?_, ?_, ?_⟩
  · intro h1 h2
    obtain ⟨st, e, e1, e2, e3⟩ := c1 h1 h2
    exact ⟨st, e, e1, by rw [hq]; exact e2, e3⟩
  · intro h1 h2
    obtain ⟨st, e, e1, e2, e3⟩ := c2 h1 h2
    exact ⟨st, e, e1, by rw [hq]; exact e2, e3⟩
  · intro h1 h2
    obtain ⟨⟨st, e, e1, e2, e3⟩, below⟩ := c3 h1 h2
    refine ⟨⟨st, e, e1, by rw [hq]; exact e2, e3⟩, ?_⟩
    apply unionOf_stable fs w1 w2 k _ _ _ _ below
    intro q hq2
    rw [strconcat_some] at hq2
    exact h q (Or.inr hq2)
  · intro h1 h2
    rw [hq]
    exact c4 h1 h2

/-- Rows added at and below the name `m` leave every other name as it was. -/
theorem levelInv_frame (fs : SrcFS) (w w1 : World) (k : Nat) (root A B : String)
    (na nb : List String) (m : String) (added : List (String × DEntry))
    (hm : '/' ∉ m.toList)
    (hdest : w1.dest = w.dest ++ added) (hat : ∀ x ∈ added, AtName root m x.1)
    (n : String) (hn : Proper n) (hne : n ≠ m) :
    (Untouched w root n → Untouched w1 root n) ∧
    (Done fs w k root A B na nb n → Done fs w1 k root A B na nb n) := by
  have hsame : ∀ q, AtName root n q → w1.lstat q = w.lstat q := by
    intro q hq
    apply World.lstat_eq_of_dest w1 w added q hdest
    intro x hx heq
    exact atName_sep root n m q hn.2.2 hm hne hq (heq ▸ hat x hx)
  refine ⟨?_, done_stable fs w w1 k root A B na nb n hsame⟩
  intro hu x hx hax
  rw [hdest] at hx
  rcases List.mem_append.mp hx with h | h
  · exact hu x h hax
  · exact atName_sep root n m x.1 hn.2.2 hm hne hax (hat x h)

theorem untouched_lstat (w : World) (root n : String) (h : Untouched w root n) :
    w.lstat (strconcat (some root) (some "/") (some n)) = none := by
  rw [World.lstat_none_iff]
  intro r hr heq
  exact h r hr (Or.inl (by rw [heq, strconcat_some]))

theorem has_conflict_two_first_dir (fs : SrcFS) (A B n : String) (st : Stat)
    (hB : fs.lstat (strconcat (some B) (some "/") (some n)) = some st)
    (hd : S_ISDIR st.st_mode = true) :
    has_conflict fs [some A, some B] n 0 = DIR_CONFLICT := by
  simp [has_conflict, has_conflict_loop, hB, hd]

theorem has_conflict_two_first_none (fs : SrcFS) (A B n : String)
    (hB : fs.lstat (strconcat (some B) (some "/") (some n)) = none) :
    has_conflict fs [some A, some B] n 0 = NO_CONFLICTS := by
  simp [has_conflict, has_conflict_loop, hB]

theorem has_conflict_two_second_none (fs : SrcFS) (A B n : String)
    (hA : fs.lstat (strconcat (some A) (some "/") (some n)) = none) :
    has_conflict fs [some A, some B] n 1 = NO_CONFLICTS := by
  simp [has_conflict, has_conflict_loop, hA]

theorem get_subdir_dir (fs : SrcFS) (A n : String) (st : Stat)
    (hA : fs.lstat (strconcat (some A) (some "/") (some n)) = some st)
    (hd : S_ISDIR st.st_mode = true) :
    get_subdir fs (some A) n = some (strconcat (some A) (some "/") (some n)) := by
  simp [get_subdir, hA, hd]

/-- The outcome of `bind_file` on a plain entry and a fresh destination path. -/
theorem bind_file_plain (fs : SrcFS) (src dst : String) (st : Stat) (w : World)
    (h : w.lstat dst = none) (hp : Plain fs src st) :
    ∃ l, bind_file fs src dst st w
      = Res.ok () ⟨w.dest ++ [(dst, boundRow fs src st)], l⟩ := by
  rcases hp with hreg | hdir | ⟨hlnk, t, ht, hlen⟩
  · refine ⟨w.log ++ [Event.mount (some src) dst none bindFlags], ?_⟩
    rw [bind_file_reg fs src dst st w h hreg]
    simp [boundRow, hreg]
  · refine ⟨w.log ++ [Event.mount (some src) dst none bindFlags], ?_⟩
    rw [bind_file_dir fs src dst st w h (dir_not_reg _ hdir) hdir]
    simp [boundRow, hdir, dir_not_reg _ hdir]
  · refine ⟨w.log ++ [Event.chmod dst (st.st_mode &&& 0o777)
      (World.landing fs ⟨w.dest ++ [(dst, ⟨DKind.symlink, 0o777, 0, 0, some t, none⟩)],
        w.log⟩ dst)], ?_⟩
    rw [bind_file_lnk fs src dst st w t h (lnk_not_reg _ hlnk) (lnk_not_dir _ hlnk) hlnk
      ht hlen]
    simp [boundRow, lnk_not_reg _ hlnk, lnk_not_dir _ hlnk, ht]

theorem boundRow_restat (fs : SrcFS) (w : World) (src p : String) (st : Stat) :
    SameButMode (boundRow fs src (w.restat p st)) (boundRow fs src st) := by
  unfold boundRow
  rw [World.isreg_restat, World.isdir_restat]
  split
  · exact ⟨rfl, World.restat_uid w p st, World.restat_gid w p st, rfl, rfl⟩
  · split
    · exact ⟨rfl, World.restat_uid w p st, World.restat_gid w p st, rfl, rfl⟩
    · exact ⟨rfl, World.restat_uid w p st, World.restat_gid w p st, rfl, rfl⟩

theorem dirRow_restat (w : World) (p : String) (st : Stat) :
    SameButMode (dirRow (w.restat p st) none) (dirRow st none) :=
  ⟨rfl, World.restat_uid w p st, World.restat_gid w p st, rfl, rfl⟩

theorem plain_restat (fs : SrcFS) (w : World) (p q : String) (st : Stat)
    (hp : Plain fs p st) : Plain fs p (w.restat q st) := by
  unfold Plain
  rw [World.isreg_restat, World.isdir_restat, World.islnk_restat]
  exact hp

theorem plain_not_special (fs : SrcFS) (p : String) (st : Stat) (hp : Plain fs p st) :
    isSpecial st.st_mode = false := by
  rcases hp with h | h | ⟨h, _⟩
  · exact reg_not_special _ h
  · exact dir_not_special _ h
  · exact lnk_not_special _ h

theorem done_listed_some (fs : SrcFS) (w : World) (k : Nat) (root A B : String)
    (na nb : List String) (n : String) (hl : n ∈ na ∨ n ∈ nb)
    (hd : Done fs w k root A B na nb n) :
    (w.lstat (strconcat (some root) (some "/") (some n))).isSome := by
  obtain ⟨c1, c2, c3, _⟩ := hd
  by_cases ha : n ∈ na <;> by_cases hb : n ∈ nb
  · obtain ⟨⟨st, e0, _, e, _⟩, _⟩ := c3 ha hb
    rw [e]; rfl
  · obtain ⟨st, e0, _, e, _⟩ := c1 ha hb
    rw [e]; rfl
  · obtain ⟨st, e0, _, e, _⟩ := c2 ha hb
    rw [e]; rfl
  · rcases hl with h | h
    · exact absurd h ha
    · exact absurd h hb

/-- After rows were added at and below the listed name `m`, which is done, the
level invariant holds again and the names that were done still are. -/
theorem levelInv_after (fs : SrcFS) (w w1 : World) (k : Nat) (root A B : String)
    (na nb : List String) (m : String) (added : List (String × DEntry))
    (hm : Proper m) (hlisted : m ∈ na ∨ m ∈ nb)
    (hdest : w1.dest = w.dest ++ added) (hat : ∀ x ∈ added, AtName root m x.1)
    (hinv : LevelInv fs w k root A B na nb)
    (hdone : Done fs w1 k root A B na nb m) :
    LevelInv fs w1 k root A B na nb ∧
    (∀ n, Proper n → Done fs w k root A B na nb n → Done fs w1 k root A B na nb n) := by
  refine ⟨?_, ?_⟩
  · intro n hn
    by_cases hne : n = m
    · subst hne
      exact Or.inr ⟨hlisted, hdone⟩
    · have hf := levelInv_frame fs w w1 k root A B na nb m added hm.2.2 hdest hat n hn hne
      rcases hinv n hn with h | ⟨h1, h2⟩
      · exact Or.inl (hf.1 h)
      · exact Or.inr ⟨h1, hf.2 h2⟩
  · intro n hn hd
    by_cases hne : n = m
    · subst hne
      exact hdone
    · exact (levelInv_frame fs w w1 k root A B na nb m added hm.2.2 hdest hat n hn hne).2 hd

/-- The visit of a name that already has a row, or of `.` and `..`, changes nothing. -/
theorem merge_entry_skip (fs : SrcFS)
    (recur : String → List (Option String) → World → Res Unit)
    (root : String) (dirs : List (Option String)) (i : Nat) (di m : String) (w : World)
    (h : (m = "." ∨ m = "..") ∨
      (w.lstat (strconcat (some root) (some "/") (some m))).isSome) :
    merge_entry fs recur root dirs i di m w = Res.ok () w := by
  unfold merge_entry
  simp only []
  by_cases hd : m = "." ∨ m = ".."
  · rw [if_pos hd]
  · rw [if_neg hd]
    rcases h with h | h
    · exact absurd h hd
    · cases hl : w.lstat (strconcat (some root) (some "/") (some m)) with
      | none => rw [hl] at h; cases h
      | some e => rfl

/-- The visit of a name that only the layer visited holds: one bound row. -/
theorem merge_entry_bind (fs : SrcFS)
    (recur : String → List (Option String) → World → Res Unit)
    (root : String) (dirs : List (Option String)) (i : Nat) (di m : String) (st : Stat)
    (w : World) (hdot : m ≠ ".") (hdotdot : m ≠ "..")
    (hw : w.lstat (strconcat (some root) (some "/") (some m)) = none)
    (hst : fs.lstat (strconcat (some di) (some "/") (some m)) = some st)
    (hp : Plain fs (strconcat (some di) (some "/") (some m)) st)
    (hc : has_conflict fs dirs m i = NO_CONFLICTS) :
    ∃ l, merge_entry fs recur root dirs i di m w
      = Res.ok () ⟨w.dest ++ [(strconcat (some root) (some "/") (some m),
          boundRow fs (strconcat (some di) (some "/") (some m))
            (w.restat (strconcat (some di) (some "/") (some m)) st))], l⟩ := by
  obtain ⟨l, hl⟩ := bind_file_plain fs (strconcat (some di) (some "/") (some m))
    (strconcat (some root) (some "/") (some m))
    (w.restat (strconcat (some di) (some "/") (some m)) st) w hw (plain_restat fs w _ _ st hp)
  refine ⟨l, ?_⟩
  rw [← hl]
  unfold merge_entry
  simp only []
  rw [if_neg (by simp [hdot, hdotdot]), hw]
  simp only [World.lstatSrc_some fs w _ st hst]
  have hns := plain_not_special fs _ st hp
  rw [if_neg (by rw [World.special_restat]; simpa [isSpecial] using hns), hc]

/-- The visit of a name that is a directory in both layers: one plain
directory row, then the recursive call on the two subdirectories. -/
theorem merge_entry_recurse (fs : SrcFS)
    (recur : String → List (Option String) → World → Res Unit)
    (root A B : String) (i : Nat) (di m : String) (st sa sb : Stat)
    (w : World) (hdot : m ≠ ".") (hdotdot : m ≠ "..")
    (hw : w.lstat (strconcat (some root) (some "/") (some m)) = none)
    (hst : fs.lstat (strconcat (some di) (some "/") (some m)) = some st)
    (hns : isSpecial st.st_mode = false)
    (hc : has_conflict fs [some A, some B] m i = DIR_CONFLICT)
    (hsa : fs.lstat (strconcat (some A) (some "/") (some m)) = some sa)
    (hda : S_ISDIR sa.st_mode = true)
    (hsb : fs.lstat (strconcat (some B) (some "/") (some m)) = some sb)
    (hdb : S_ISDIR sb.st_mode = true) :
    merge_entry fs recur root [some A, some B] i di m w
      = recur (strconcat (some root) (some "/") (some m))
          [some (strconcat (some A) (some "/") (some m)),
           some (strconcat (some B) (some "/") (some m))]
          ⟨w.dest ++ [(strconcat (some root) (some "/") (some m),
            dirRow (w.restat (strconcat (some di) (some "/") (some m)) st) none)], w.log⟩ := by
  unfold merge_entry
  simp only []
  rw [if_neg (by simp [hdot, hdotdot]), hw]
  simp only [World.lstatSrc_some fs w _ st hst]
  rw [if_neg (by rw [World.special_restat]; simpa [isSpecial] using hns), hc]
  simp only [World.mkdir, World.create, hw, orFatal, World.lchown,
    World.lstat_fresh w _ _ _ hw, map_setOwner_fresh w _ _ _ _ hw, List.map_cons,
    List.map_nil, get_subdir_dir fs A m sa hsa hda, get_subdir_dir fs B m sb hsb hdb]
  rfl

theorem mergeable_first (fs : SrcFS) (k : Nat) (A B : String) (na nb : List String)
    (hM : Mergeable fs (k + 1) A B) (hA : fs.readdir A = some na)
    (hB : fs.readdir B = some nb) (n : String) (hn : n ∈ na) (hdot : n ≠ ".")
    (hdotdot : n ≠ "..") :
    '/' ∉ n.toList ∧
      ∃ st, fs.lstat (strconcat (some A) (some "/") (some n)) = some st ∧
        Plain fs (strconcat (some A) (some "/") (some n)) st ∧
        ((fs.lstat (strconcat (some B) (some "/") (some n)) = none ∧ n ∉ nb) ∨
         (n ∈ nb ∧ S_ISDIR st.st_mode = true ∧
          Mergeable fs k (strconcat (some A) (some "/") (some n))
            (strconcat (some B) (some "/") (some n)))) := by
  obtain ⟨na1, nb1, hA1, hB1, hca, _⟩ := hM
  rw [hA] at hA1
  rw [hB] at hB1
  simp only [Option.some.injEq] at hA1 hB1
  subst hA1
  subst hB1
  exact hca n hn hdot hdotdot

theorem mergeable_second (fs : SrcFS) (k : Nat) (A B : String) (na nb : List String)
    (hM : Mergeable fs (k + 1) A B) (hA : fs.readdir A = some na)
    (hB : fs.readdir B = some nb) (n : String) (hn : n ∈ nb) (hdot : n ≠ ".")
    (hdotdot : n ≠ "..") :
    '/' ∉ n.toList ∧
      ∃ st, fs.lstat (strconcat (some B) (some "/") (some n)) = some st ∧
        Plain fs (strconcat (some B) (some "/") (some n)) st ∧
        ((fs.lstat (strconcat (some A) (some "/") (some n)) = none ∧ n ∉ na) ∨
         (n ∈ na ∧ S_ISDIR st.st_mode = true)) := by
  obtain ⟨na1, nb1, hA1, hB1, _, hcb⟩ := hM
  rw [hA] at hA1
  rw [hB] at hB1
  simp only [Option.some.injEq] at hA1 hB1
  subst hA1
  subst hB1
  exact hcb n hn hdot hdotdot

/-- One turn of the inner loop on the first of two mergeable layers. -/
theorem visit_first (fs : SrcFS) (k : Nat) (root A B : String) (na nb : List String)
    (hM : Mergeable fs (k + 1) A B) (hA : fs.readdir A = some na)
    (hB : fs.readdir B = some nb)
    (hIH : ∀ (r A1 B1 : String) (w : World), Mergeable fs k A1 B1 →
      (∀ x ∈ w.dest, ¬ Under r x.1) →
      ∃ w1, merge_dirs fs k r [some A1, some B1] w = Res.ok () w1 ∧
        World.Grows r w w1 ∧ UnionOf fs w1 k r A1 B1)
    (m : String) (hm : m ∈ na) (w : World)
    (hinv : LevelInv fs w k root A B na nb) :
    ∃ w1, merge_entry fs (merge_dirs fs k) root [some A, some B] 0 A m w = Res.ok () w1 ∧
      LevelInv fs w1 k root A B na nb ∧
      (∀ n, Proper n → Done fs w k root A B na nb n → Done fs w1 k root A B na nb n) ∧
      (m ≠ "." → m ≠ ".." → Done fs w1 k root A B na nb m) ∧
      World.Grows root w w1 := by
  by_cases hdots : m = "." ∨ m = ".."
  · refine ⟨w, merge_entry_skip fs _ root _ 0 A m w (Or.inl hdots), hinv,
      fun _ _ h => h, ?_, World.grows_refl root w⟩
    intro h1 h2
    rcases hdots with h | h
    · exact absurd h h1
    · exact absurd h h2
  · have hdot : m ≠ "." := fun h => hdots (Or.inl h)
    have hdotdot : m ≠ ".." := fun h => hdots (Or.inr h)
    obtain ⟨hslash, st, hst, hplain, hcase⟩ :=
      mergeable_first fs k A B na nb hM hA hB m hm hdot hdotdot
    have hproper : Proper m := ⟨hdot, hdotdot, hslash⟩
    rcases hinv m hproper with hun | ⟨hl, hd⟩
    · have hnone := untouched_lstat w root m hun
      rcases hcase with ⟨hBnone, hnb⟩ | ⟨hnb, hdir, hMk⟩
      · obtain ⟨l, hl⟩ := merge_entry_bind fs (merge_dirs fs k) root [some A, some B] 0 A m st
          w hdot hdotdot hnone hst hplain (has_conflict_two_first_none fs A B m hBnone)
        have hdone : Done fs ⟨w.dest ++ [(strconcat (some root) (some "/") (some m),
            boundRow fs (strconcat (some A) (some "/") (some m))
              (w.restat (strconcat (some A) (some "/") (some m)) st))], l⟩
            k root A B na nb m := by
          refine ⟨fun _ _ => ⟨st, _, hst, World.lstat_fresh w _ _ l hnone,
              boundRow_restat fs w _ _ st⟩,
            fun h _ => absurd hm h, fun _ h => absurd h hnb, fun h _ => absurd hm h⟩
        have hat : ∀ x ∈ [(strconcat (some root) (some "/") (some m),
            boundRow fs (strconcat (some A) (some "/") (some m))
              (w.restat (strconcat (some A) (some "/") (some m)) st))],
            AtName root m x.1 := by
          intro x hx
          simp only [List.mem_singleton] at hx
          rw [hx]
          exact Or.inl (strconcat_some root "/" m)
        obtain ⟨i1, i2⟩ := levelInv_after fs w _ k root A B na nb m _ hproper (Or.inl hm) rfl
          hat hinv hdone
        exact ⟨_, hl, i1, i2, fun _ _ => hdone,
          ⟨_, rfl, fun x hx => atName_under root m x.1 (hat x hx)⟩⟩
      · obtain ⟨_, sb, hsb, _, hcb⟩ :=
          mergeable_second fs k A B na nb hM hA hB m hnb hdot hdotdot
        have hdb : S_ISDIR sb.st_mode = true := by
          rcases hcb with ⟨h, _⟩ | ⟨_, h⟩
          · rw [hst] at h; cases h
          · exact h
        have hrec := merge_entry_recurse fs (merge_dirs fs k) root A B 0 A m st st sb w
          hdot hdotdot hnone hst (dir_not_special _ hdir)
          (has_conflict_two_first_dir fs A B m sb hsb hdb) hst hdir hsb hdb
        have hclean : ∀ x ∈ (World.mk (w.dest ++ [(strconcat (some root) (some "/") (some m),
            dirRow (w.restat (strconcat (some A) (some "/") (some m)) st) none)]) w.log).dest,
            ¬ Under (strconcat (some root) (some "/") (some m)) x.1 := by
          intro x hx hu
          rcases List.mem_append.mp hx with h | h
          · rw [strconcat_some] at hu
            exact hun x h (Or.inr hu)
          · simp only [List.mem_singleton] at h
            rw [h] at hu
            exact not_under_self _ hu
        obtain ⟨w3, h3, ⟨added, hadd, hunder⟩, hunion⟩ := hIH _ _ _ _ hMk hclean
        have hdest : w3.dest = w.dest ++ ((strconcat (some root) (some "/") (some m),
            dirRow (w.restat (strconcat (some A) (some "/") (some m)) st) none) :: added) := by
          rw [hadd]; simp
        have hat : ∀ x ∈ ((strconcat (some root) (some "/") (some m),
            dirRow (w.restat (strconcat (some A) (some "/") (some m)) st) none) :: added),
            AtName root m x.1 := by
          intro x hx
          rcases List.mem_cons.mp hx with h | h
          · rw [h]; exact Or.inl (strconcat_some root "/" m)
          · have := hunder x h
            rw [strconcat_some] at this
            exact Or.inr this
        have hrow : w3.lstat (strconcat (some root) (some "/") (some m))
            = some (dirRow (w.restat (strconcat (some A) (some "/") (some m)) st) none) := by
          have h0 := World.lstat_fresh w (strconcat (some root) (some "/") (some m))
            (dirRow (w.restat (strconcat (some A) (some "/") (some m)) st) none) w.log hnone
          unfold World.lstat at h0 ⊢
          rw [hadd, List.find?_append]
          cases hf : List.find? (fun r => r.1 == strconcat (some root) (some "/") (some m))
              (w.dest ++ [(strconcat (some root) (some "/") (some m),
                dirRow (w.restat (strconcat (some A) (some "/") (some m)) st) none)]) with
          | none => rw [hf] at h0; cases h0
          | some v => rw [hf] at h0; simpa using h0
        have hdone : Done fs w3 k root A B na nb m :=
          ⟨fun _ h => absurd hnb h, fun h _ => absurd hm h,
            fun _ _ => ⟨⟨st, _, hst, hrow, dirRow_restat w _ st⟩, hunion⟩,
            fun h _ => absurd hm h⟩
        obtain ⟨i1, i2⟩ := levelInv_after fs w w3 k root A B na nb m _ hproper (Or.inl hm)
          hdest hat hinv hdone
        exact ⟨w3, by rw [hrec]; exact h3, i1, i2, fun _ _ => hdone,
          ⟨_, hdest, fun x hx => atName_under root m x.1 (hat x hx)⟩⟩
    · exact ⟨w, merge_entry_skip fs _ root _ 0 A m w
          (Or.inr (done_listed_some fs w k root A B na nb m hl hd)), hinv,
        fun _ _ h => h, fun _ _ => hd, World.grows_refl root w⟩

theorem World.lstat_some_of_dest (w w1 : World) (added : List (String × DEntry))
    (h : w1.dest = w.dest ++ added) (q : String) (hq : (w.lstat q).isSome) :
    (w1.lstat q).isSome := by
  have := World.lstat_append_some w added w1.log q hq
  rw [World.lstat_of_dest_eq ⟨w.dest ++ added, w1.log⟩ w1 q h]
  exact this

/-- One turn of the inner loop on the second of two mergeable layers, after
the names of the first layer got their rows. -/
theorem visit_second (fs : SrcFS) (k : Nat) (root A B : String) (na nb : List String)
    (hM : Mergeable fs (k + 1) A B) (hA : fs.readdir A = some na)
    (hB : fs.readdir B = some nb)
    (m : String) (hm : m ∈ nb) (w : World)
    (hinv : LevelInv fs w k root A B na nb)
    (hfirst : ∀ n ∈ na, n ≠ "." → n ≠ ".." →
      (w.lstat (strconcat (some root) (some "/") (some n))).isSome) :
    ∃ w1, merge_entry fs (merge_dirs fs k) root [some A, some B] 1 B m w = Res.ok () w1 ∧
      LevelInv fs w1 k root A B na nb ∧
      (∀ n, Proper n → Done fs w k root A B na nb n → Done fs w1 k root A B na nb n) ∧
      (m ≠ "." → m ≠ ".." → Done fs w1 k root A B na nb m) ∧
      World.Grows root w w1 := by
  by_cases hdots : m = "." ∨ m = ".."
  · refine ⟨w, merge_entry_skip fs _ root _ 1 B m w (Or.inl hdots), hinv,
      fun _ _ h => h, ?_, World.grows_refl root w⟩
    intro h1 h2
    rcases hdots with h | h
    · exact absurd h h1
    · exact absurd h h2
  · have hdot : m ≠ "." := fun h => hdots (Or.inl h)
    have hdotdot : m ≠ ".." := fun h => hdots (Or.inr h)
    obtain ⟨hslash, st, hst, hplain, hcase⟩ :=
      mergeable_second fs k A B na nb hM hA hB m hm hdot hdotdot
    have hproper : Proper m := ⟨hdot, hdotdot, hslash⟩
    rcases hinv m hproper with hun | ⟨hl, hd⟩
    · have hnone := untouched_lstat w root m hun
      have hna : m ∉ na := by
        intro h
        have := hfirst m h hdot hdotdot
        rw [hnone] at this
        cases this
      have hAnone : fs.lstat (strconcat (some A) (some "/") (some m)) = none := by
        rcases hcase with ⟨h, _⟩ | ⟨h, _⟩
        · exact h
        · exact absurd h hna
      obtain ⟨l, hl⟩ := merge_entry_bind fs (merge_dirs fs k) root [some A, some B] 1 B m st
        w hdot hdotdot hnone hst hplain (has_conflict_two_second_none fs A B m hAnone)
      have hdone : Done fs ⟨w.dest ++ [(strconcat (some root) (some "/") (some m),
          boundRow fs (strconcat (some B) (some "/") (some m))
            (w.restat (strconcat (some B) (some "/") (some m)) st))], l⟩
          k root A B na nb m := by
        refine ⟨fun h _ => absurd h hna,
          fun _ _ => ⟨st, _, hst, World.lstat_fresh w _ _ l hnone,
            boundRow_restat fs w _ _ st⟩,
          fun h _ => absurd h hna, fun _ h => absurd hm h⟩
      have hat : ∀ x ∈ [(strconcat (some root) (some "/") (some m),
          boundRow fs (strconcat (some B) (some "/") (some m))
            (w.restat (strconcat (some B) (some "/") (some m)) st))],
          AtName root m x.1 := by
        intro x hx
        simp only [List.mem_singleton] at hx
        rw [hx]
        exact Or.inl (strconcat_some root "/" m)
      obtain ⟨i1, i2⟩ := levelInv_after fs w _ k root A B na nb m _ hproper (Or.inr hm) rfl
        hat hinv hdone
      exact ⟨_, hl, i1, i2, fun _ _ => hdone,
        ⟨_, rfl, fun x hx => atName_under root m x.1 (hat x hx)⟩⟩
    · exact ⟨w, merge_entry_skip fs _ root _ 1 B m w
          (Or.inr (done_listed_some fs w k root A B na nb m hl hd)), hinv,
        fun _ _ h => h, fun _ _ => hd, World.grows_refl root w⟩

/-- The inner loop over names of one of two mergeable layers, given what one
turn does. -/
theorem merge_entries_level (fs : SrcFS) (k : Nat) (root A B : String) (na nb : List String)
    (i : Nat) (di : String) (Extra : World → Prop)
    (hextra : ∀ w w1, Extra w → World.Grows root w w1 → Extra w1)
    (todo : List String)
    (hstep : ∀ m ∈ todo, ∀ w, LevelInv fs w k root A B na nb → Extra w →
      ∃ w1, merge_entry fs (merge_dirs fs k) root [some A, some B] i di m w = Res.ok () w1 ∧
        LevelInv fs w1 k root A B na nb ∧
        (∀ n, Proper n → Done fs w k root A B na nb n → Done fs w1 k root A B na nb n) ∧
        (m ≠ "." → m ≠ ".." → Done fs w1 k root A B na nb m) ∧
        World.Grows root w w1)
    (hproper : ∀ m ∈ todo, m ≠ "." → m ≠ ".." → Proper m)
    (w : World) (hinv : LevelInv fs w k root A B na nb) (hx : Extra w) :
    ∃ w1, merge_entries fs (merge_dirs fs k) root [some A, some B] i di todo w
        = Res.ok () w1 ∧
      LevelInv fs w1 k root A B na nb ∧
      (∀ n, Proper n → Done fs w k root A B na nb n → Done fs w1 k root A B na nb n) ∧
      (∀ m ∈ todo, m ≠ "." → m ≠ ".." → Done fs w1 k root A B na nb m) ∧
      World.Grows root w w1 := by
  induction todo generalizing w with
  | nil =>
    exact ⟨w, rfl, hinv, fun _ _ h => h, by simp, World.grows_refl root w⟩
  | cons m rest ih =>
    obtain ⟨w1, h1, i1, d1, dm, g1⟩ := hstep m (List.mem_cons_self _ _) w hinv hx
    obtain ⟨w2, h2, i2, d2, dr, g2⟩ := ih
      (fun n hn => hstep n (List.mem_cons_of_mem _ hn))
      (fun n hn => hproper n (List.mem_cons_of_mem _ hn)) w1 i1 (hextra w w1 hx g1)
    refine ⟨w2, ?_, i2, fun n hn h => d2 n hn (d1 n hn h), ?_, World.grows_trans g1 g2⟩
    · unfold merge_entries
      rw [h1]
      exact h2
    · intro n hn hdot hdotdot
      rcases List.mem_cons.mp hn with h | h
      · subst h
        exact d2 n (hproper n (List.mem_cons_self _ _) hdot hdotdot) (dm hdot hdotdot)
      · exact dr n h hdot hdotdot

/-- One call of `merge_dirs` on two mergeable layers, given the recursive calls. -/
theorem merge_two_level (fs : SrcFS) (k : Nat) (root A B : String)
    (hM : Mergeable fs (k + 1) A B)
    (hIH : ∀ (r A1 B1 : String) (w : World), Mergeable fs k A1 B1 →
      (∀ x ∈ w.dest, ¬ Under r x.1) →
      ∃ w1, merge_dirs fs k r [some A1, some B1] w = Res.ok () w1 ∧
        World.Grows r w w1 ∧ UnionOf fs w1 k r A1 B1)
    (w : World) (hclean : ∀ x ∈ w.dest, ¬ Under root x.1) :
    ∃ w1, merge_dirs fs (k + 1) root [some A, some B] w = Res.ok () w1 ∧
      World.Grows root w w1 ∧ UnionOf fs w1 (k + 1) root A B := by
  have hM1 := hM
  obtain ⟨na, nb, hA, hB, _, _⟩ := hM1
  have hinv0 : LevelInv fs w k root A B na nb := by
    intro n _
    left
    intro x hx hat
    exact hclean x hx (atName_under root n x.1 hat)
  obtain ⟨w1, h1, i1, _, done1, g1⟩ := merge_entries_level fs k root A B na nb 0 A
    (fun _ => True) (fun _ _ _ _ => trivial) na
    (fun m hm w0 hw0 _ => visit_first fs k root A B na nb hM hA hB hIH m hm w0 hw0)
    (fun m hm hdot hdotdot =>
      ⟨hdot, hdotdot, (mergeable_first fs k A B na nb hM hA hB m hm hdot hdotdot).1⟩)
    w hinv0 trivial
  obtain ⟨w2, h2, i2, keep2, done2, g2⟩ := merge_entries_level fs k root A B na nb 1 B
    (fun w0 => ∀ n ∈ na, n ≠ "." → n ≠ ".." →
      (w0.lstat (strconcat (some root) (some "/") (some n))).isSome)
    (fun w0 w3 hx hg n hn hdot hdotdot => by
      obtain ⟨added, hadd, _⟩ := hg
      exact World.lstat_some_of_dest w0 w3 added hadd _ (hx n hn hdot hdotdot))
    nb
    (fun m hm w0 hw0 hx => visit_second fs k root A B na nb hM hA hB m hm w0 hw0 hx)
    (fun m hm hdot hdotdot =>
      ⟨hdot, hdotdot, (mergeable_second fs k A B na nb hM hA hB m hm hdot hdotdot).1⟩)
    w1 i1
    (fun n hn hdot hdotdot =>
      done_listed_some fs w1 k root A B na nb n (Or.inl hn) (done1 n hn hdot hdotdot))
  refine ⟨w2, ?_, World.grows_trans g1 g2, ?_⟩
  · unfold merge_dirs merge_layers
    simp only [hA, h1]
    unfold merge_layers
    simp only [hB, h2]
    rfl
  · intro na1 nb1 hA1 hB1 n hn
    rw [hA] at hA1
    rw [hB] at hB1
    simp only [Option.some.injEq] at hA1 hB1
    subst hA1
    subst hB1
    by_cases ha : n ∈ na
    · exact keep2 n hn (done1 n ha hn.1 hn.2.1)
    · by_cases hb : n ∈ nb
      · exact done2 n hb hn.1 hn.2.1
      · rcases i2 n hn with hun | ⟨hl, _⟩
        · exact ⟨fun h _ => absurd h ha, fun _ h => absurd h hb, fun h _ => absurd h ha,
            fun _ _ => untouched_lstat w2 root n hun⟩
        · rcases hl with h | h
          · exact absurd h ha
          · exact absurd h hb

theorem merge_two_union (fs : SrcFS) (k : Nat) (root A B : String) (w : World)
    (hM : Mergeable fs k A B) (hclean : ∀ x ∈ w.dest, ¬ Under root x.1) :
    ∃ w1, merge_dirs fs k root [some A, some B] w = Res.ok () w1 ∧
      World.Grows root w w1 ∧ UnionOf fs w1 k root A B := by
  induction k generalizing root A B w with
  | zero => exact absurd hM (by simp [Mergeable])
  | succ k ih =>
    exact merge_two_level fs k root A B hM
      (fun r A1 B1 w0 h1 h2 => ih r A1 B1 w0 h1 h2) w hclean

theorem mergeable_succ (fs : SrcFS) (k : Nat) (A B : String) (hM : Mergeable fs k A B) :
    Mergeable fs (k + 1) A B := by
  induction k generalizing A B with
  | zero => exact absurd hM (by simp [Mergeable])
  | succ k ih =>
    obtain ⟨na, nb, hA, hB, hca, hcb⟩ := hM
    refine ⟨na, nb, hA, hB, ?_, hcb⟩
    intro n hn hdot hdotdot
    obtain ⟨hs, st, hst, hp, hcase⟩ := hca n hn hdot hdotdot
    refine ⟨hs, st, hst, hp, ?_⟩
    rcases hcase with h | ⟨h1, h2, h3⟩
    · exact Or.inl h
    · exact Or.inr ⟨h1, h2, ih _ _ h3⟩

theorem mergeable_mono (fs : SrcFS) (k fuel : Nat) (A B : String) (hk : k ≤ fuel)
    (hM : Mergeable fs k A B) : Mergeable fs fuel A B := by
  induction hk with
  | refl => exact hM
  | step _ ih => exact mergeable_succ fs _ A B ih

/-- C2 (amended): for two layers `A` and `B` of regular files, directories and
symbolic links with a text shorter than 1024 bytes, in which a name held by
both, at any depth reached through directories both hold, is a directory in
both, `merge_dirs` into an empty destination returns (when the recursion budget
is at least the nesting depth `k` of the shared directories), and the
destination is the union of the two layers: a name of one layer only is that
entry, a name of both is one directory which is in turn the union of the two
directories of that name, and there is nothing else.  The permission bits of
the entries are not part of the statement: a `chmod` through a link of a layer
can change them. -/
theorem shared_dirs_are_united (fs : SrcFS) (k fuel : Nat) (root A B : String) (w : World)
    (hw : w.dest = []) (hM : Mergeable fs k A B) (hk : k ≤ fuel) :
    ∃ w1, merge_dirs fs fuel root [some A, some B] w = Res.ok () w1 ∧
      UnionOf fs w1 fuel root A B := by
  obtain ⟨w1, h1, _, h2⟩ := merge_two_union fs fuel root A B w
    (mergeable_mono fs k fuel A B hk hM) (by rw [hw]; simp)
  exact ⟨w1, h1, h2⟩

theorem fsShared_mergeable : Mergeable fsShared 2 "/A" "/B" := by
  refine ⟨[".", "..", "d"], [".", "..", "d"], by decide, by decide, ?_, ?_⟩
  · intro n hn hdot hdotdot
    simp only [List.mem_cons, List.mem_singleton, List.not_mem_nil, or_false] at hn
    rcases hn with h | h | h
    · exact absurd h hdot
    · exact absurd h hdotdot
    · subst h
      refine ⟨by decide, dirStat, by decide, Or.inr (Or.inl (by decide)),
        Or.inr ⟨by decide, by decide, ?_⟩⟩
      refine ⟨[".", "..", "a"], [".", "..", "b"], by decide, by decide, ?_, ?_⟩
      · intro n hn hdot hdotdot
        simp only [List.mem_cons, List.mem_singleton, List.not_mem_nil, or_false] at hn
        rcases hn with h | h | h
        · exact absurd h hdot
        · exact absurd h hdotdot
        · subst h
          exact ⟨by decide, regStat, by decide, Or.inl (by decide),
            Or.inl ⟨by decide, by decide⟩⟩
      · intro n hn hdot hdotdot
        simp only [List.mem_cons, List.mem_singleton, List.not_mem_nil, or_false] at hn
        rcases hn with h | h | h
        · exact absurd h hdot
        · exact absurd h hdotdot
        · subst h
          exact ⟨by decide, regStat, by decide, Or.inl (by decide),
            Or.inl ⟨by decide, by decide⟩⟩
  · intro n hn hdot hdotdot
    simp only [List.mem_cons, List.mem_singleton, List.not_mem_nil, or_false] at hn
    rcases hn with h | h | h
    · exact absurd h hdot
    · exact absurd h hdotdot
    · subst h
      exact ⟨by decide, dirStat, by decide, Or.inr (Or.inl (by decide)),
        Or.inr ⟨by decide, by decide⟩⟩

/-- Witness for `shared_dirs_are_united`: the layers `/A` with `d/a` and `/B`
with `d/b`. -/
theorem shared_dirs_are_united_witness :
    ∃ w1, merge_dirs fsShared 5 "/m" [some "/A", some "/B"] World.empty = Res.ok () w1 ∧
      UnionOf fsShared w1 5 "/m" "/A" "/B" :=
  shared_dirs_are_united fsShared 2 5 "/m" "/A" "/B" World.empty rfl fsShared_mergeable
    (by decide)

/-- C2 (as stated, refuted): the layers `/A` and `/B` both hold the directory
`d`, nothing in the one `d` clashes with the other, the merge returns, and the
destination `d` lacks the entry `p` of the `d` of `/A`, a named pipe. -/
theorem shared_dir_drops_pipe :
    fsSharedPipe.lstat "/A/d" = some dirStat ∧ fsSharedPipe.lstat "/B/d" = some dirStat ∧
    fsSharedPipe.readdir "/A/d" = some [".", "..", "p"] ∧
    fsSharedPipe.readdir "/B/d" = some [".", "..", "b"] ∧
    fsSharedPipe.lstat "/B/d/p" = none ∧ fsSharedPipe.lstat "/A/d/b" = none ∧
    merge_dirs fsSharedPipe 5 "/m" [some "/A", some "/B"] World.empty
      = Res.ok () ⟨[("/m/d", dirRow dirStat none),
          ("/m/d/b", fileRow regStat "/B/d/b")],
          [Event.warning "WARNING: ignoring special file /A/d/p\n",
           Event.mount (some "/B/d/b") "/m/d/b" none bindFlags]⟩ ∧
    mergedHas fsSharedPipe
      (merge_dirs fsSharedPipe 5 "/m" [some "/A", some "/B"] World.empty).world
      "/m" ["d", "p"] = false := by
  decide


/-! ## The recursion ends on layers of bounded depth -/

theorem has_conflict_loop_dir (fs : SrcFS) (name : String) (ex : Nat)
    (todo : List (Option String)) (k : Nat) (acc : Bool × Bool)
    (h : has_conflict_loop fs name ex k todo acc = (true, true)) :
    acc = (true, true) ∨
    ∃ j d st, todo[j]? = some (some d) ∧ k + j ≠ ex ∧
      fs.lstat (strconcat (some d) (some "/") (some name)) = some st ∧
      S_ISDIR st.st_mode = true := by
  induction todo generalizing k acc with
  | nil => exact Or.inl h
  | cons d0 rest ih =>
    have lift : (∃ j d st, rest[j]? = some (some d) ∧ k + 1 + j ≠ ex ∧
        fs.lstat (strconcat (some d) (some "/") (some name)) = some st ∧
        S_ISDIR st.st_mode = true) →
        ∃ j d st, (d0 :: rest)[j]? = some (some d) ∧ k + j ≠ ex ∧
          fs.lstat (strconcat (some d) (some "/") (some name)) = some st ∧
          S_ISDIR st.st_mode = true := by
      rintro ⟨j, d, st, h1, h2, h3, h4⟩
      exact ⟨j + 1, d, st, by simpa using h1, by omega, h3, h4⟩
    unfold has_conflict_loop at h
    cases d0 with
    | none =>
      rcases ih _ _ h with h1 | h1
      · exact Or.inl h1
      · exact Or.inr (lift h1)
    | some d1 =>
      simp only [] at h
      split at h
      · rcases ih _ _ h with h1 | h1
        · exact Or.inl h1
        · exact Or.inr (lift h1)
      · rename_i hne
        split at h
        · rcases ih _ _ h with h1 | h1
          · exact Or.inl h1
          · exact Or.inr (lift h1)
        · rename_i st hst
          rcases ih _ _ h with h1 | h1
          · right
            refine ⟨0, d1, st, by simp, by simpa using hne, hst, ?_⟩
            simp only [Prod.mk.injEq, true_and] at h1
            cases hd : S_ISDIR st.st_mode with
            | true => rfl
            | false => rw [hd] at h1; simp at h1
          · exact Or.inr (lift h1)

/-- The answer `DIR_CONFLICT` means another layer holds the name as a directory. -/
theorem has_conflict_dir (fs : SrcFS) (dirs : List (Option String)) (name : String)
    (ex : Nat) (h : has_conflict fs dirs name ex = DIR_CONFLICT) :
    ∃ j d st, dirs[j]? = some (some d) ∧ j ≠ ex ∧
      fs.lstat (strconcat (some d) (some "/") (some name)) = some st ∧
      S_ISDIR st.st_mode = true := by
  unfold has_conflict at h
  simp only [] at h
  cases hr : has_conflict_loop fs name ex 0 dirs (false, true) with
  | mk c a =>
    rw [hr] at h
    cases c with
    | false => simp at h
    | true =>
      cases a with
      | false => simp at h
      | true =>
        rcases has_conflict_loop_dir fs name ex dirs 0 (false, true) hr with h1 | h1
        · simp at h1
        · obtain ⟨j, d, st, h2, h3, h4, h5⟩ := h1
          exact ⟨j, d, st, h2, by omega, h4, h5⟩

theorem orFatal_total {α : Type} (call : Option World) (msg : String) (w : World)
    (k : World → Res α) (hk : ∀ w1 w2, k w1 ≠ Res.nofuel w2) (w2 : World) :
    orFatal call msg w k ≠ Res.nofuel w2 := by
  cases call with
  | none => simp [orFatal]
  | some w1 => exact hk w1 w2

theorem bind_file_total (fs : SrcFS) (src dst : String) (st : Stat) (w w2 : World) :
    bind_file fs src dst st w ≠ Res.nofuel w2 := by
  unfold bind_file
  split
  · refine orFatal_total _ _ _ _ (fun w1 w3 => ?_) w2
    refine orFatal_total _ _ _ _ (fun w4 w5 => ?_) w3
    exact orFatal_total _ _ _ _ (fun _ _ => by simp) w5
  · split
    · refine orFatal_total _ _ _ _ (fun w1 w3 => ?_) w2
      refine orFatal_total _ _ _ _ (fun w4 w5 => ?_) w3
      exact orFatal_total _ _ _ _ (fun _ _ => by simp) w5
    · split
      · split
        · simp
        · split
          · simp
          · refine orFatal_total _ _ _ _ (fun w1 w3 => ?_) w2
            exact orFatal_total _ _ _ _ (fun _ _ => by simp) w3
      · simp

/-- A turn of the inner loop does not run out of budget unless the recursive
call it makes on a directory conflict does. -/
theorem merge_entry_total (fs : SrcFS)
    (recur : String → List (Option String) → World → Res Unit)
    (root : String) (dirs : List (Option String)) (i : Nat) (di name : String) (w : World)
    (hrec : ¬ (name = "." ∨ name = "..") → has_conflict fs dirs name i = DIR_CONFLICT →
      ∀ r w1 w2, recur r (dirs.map (fun dj => get_subdir fs dj name)) w1 ≠ Res.nofuel w2)
    (w2 : World) :
    merge_entry fs recur root dirs i di name w ≠ Res.nofuel w2 := by
  unfold merge_entry
  simp only []
  split
  · simp
  · rename_i hdots
    split
    · simp
    · split
      · simp
      · split
        · simp
        · split
          · exact bind_file_total _ _ _ _ _ _
          · rename_i hc
            refine orFatal_total _ _ _ _ (fun w1 w3 => ?_) w2
            exact orFatal_total _ _ _ _ (fun w4 w5 => hrec hdots hc _ w4 w5) w3
          · simp

theorem merge_entries_total (fs : SrcFS)
    (recur : String → List (Option String) → World → Res Unit)
    (root : String) (dirs : List (Option String)) (i : Nat) (di : String)
    (names : List String)
    (hstep : ∀ n ∈ names, ∀ w w2, merge_entry fs recur root dirs i di n w ≠ Res.nofuel w2)
    (w w2 : World) :
    merge_entries fs recur root dirs i di names w ≠ Res.nofuel w2 := by
  induction names generalizing w with
  | nil => simp [merge_entries]
  | cons n rest ih =>
    unfold merge_entries
    cases hr : merge_entry fs recur root dirs i di n w with
    | ok a w1 => exact ih (fun m hm => hstep m (List.mem_cons_of_mem _ hm)) w1
    | fatal msg w1 => simp
    | nofuel w1 => exact absurd hr (hstep n (List.mem_cons_self _ _) w w1)

theorem merge_layers_total (fs : SrcFS)
    (recur : String → List (Option String) → World → Res Unit)
    (root : String) (dirs : List (Option String))
    (hstep : ∀ j dj names, dirs[j]? = some (some dj) → fs.readdir dj = some names →
      ∀ n ∈ names, ∀ w w2, merge_entry fs recur root dirs j dj n w ≠ Res.nofuel w2)
    (i : Nat) (todo : List (Option String)) (htodo : todo = dirs.drop i) (w w2 : World) :
    merge_layers fs recur root dirs i todo w ≠ Res.nofuel w2 := by
  induction todo generalizing w i with
  | nil => simp [merge_layers]
  | cons d rest ih =>
    have hi : dirs[i]? = some d := by
      have := congrArg List.head? htodo
      simp only [List.head?_cons, List.head?_drop] at this
      exact this.symm
    have hrest : rest = dirs.drop (i + 1) := by
      have := congrArg List.tail htodo
      simpa using this
    unfold merge_layers
    cases d with
    | none => exact ih (i + 1) hrest w
    | some di =>
      simp only []
      cases hd : fs.readdir di with
      | none => exact ih (i + 1) hrest w
      | some names =>
        simp only []
        cases hr : merge_entries fs recur root dirs i di names w with
        | ok a w1 => exact ih (i + 1) hrest w1
        | fatal msg w1 => simp
        | nofuel w1 =>
          exact absurd hr
            (merge_entries_total fs recur root dirs i di names (hstep i di names hi hd) w w1)


theorem two_both_some (a b : Option String) (j j2 : Nat) (dj d2 : String)
    (hj : [a, b][j]? = some (some dj)) (hj2 : [a, b][j2]? = some (some d2)) (hne : j2 ≠ j) :
    ∃ pa pb, a = some pa ∧ b = some pb ∧ (d2 = pa ∨ d2 = pb) := by
  rcases j with _ | _ | j <;> rcases j2 with _ | _ | j2
  · exact absurd rfl hne
  · simp only [List.getElem?_cons_zero, List.getElem?_cons_succ, Option.some.injEq] at hj hj2
    exact ⟨dj, d2, hj, hj2, Or.inr rfl⟩
  · simp at hj2
  · simp only [List.getElem?_cons_zero, List.getElem?_cons_succ, Option.some.injEq] at hj hj2
    exact ⟨d2, dj, hj2, hj, Or.inl rfl⟩
  · exact absurd rfl hne
  · simp at hj2
  · simp at hj
  · simp at hj
  · simp at hj

theorem get_subdir_inv (fs : SrcFS) (p n q : String)
    (h : get_subdir fs (some p) n = some q) :
    q = strconcat (some p) (some "/") (some n) ∧
    ∃ st, fs.lstat (strconcat (some p) (some "/") (some n)) = some st ∧
      S_ISDIR st.st_mode = true := by
  unfold get_subdir at h
  simp only [] at h
  split at h
  · rename_i st hst
    split at h
    · rename_i hd
      simp only [Option.some.injEq] at h
      exact ⟨h.symm, st, hst, hd⟩
    · cases h
  · cases h

/-- On two layers in which directories nest at most `k` deep, `merge_dirs`
ends within a budget of `k + 1`. -/
theorem merge_two_total (fs : SrcFS) (k : Nat) (a b : Option String)
    (ha : ∀ p, a = some p → Shallow fs k p) (hb : ∀ p, b = some p → Shallow fs k p)
    (fuel : Nat) (hf : k ≤ fuel) (root : String) (w w2 : World) :
    merge_dirs fs (fuel + 1) root [a, b] w ≠ Res.nofuel w2 := by
  induction k generalizing a b fuel root w w2 with
  | zero =>
    unfold merge_dirs
    apply merge_layers_total fs _ root [a, b] _ 0 [a, b] (by simp)
    intro j dj names hj hd n hn w0 w3
    apply merge_entry_total
    intro hdots hc
    have hlisted : Listed fs n :=
      ⟨dj, names, hd, hn, fun h => hdots (Or.inl h), fun h => hdots (Or.inr h)⟩
    obtain ⟨j2, d2, st, hj2, hne, hst, hdir⟩ := has_conflict_dir fs [a, b] n j hc
    obtain ⟨pa, pb, hpa, hpb, hd2⟩ := two_both_some a b j j2 dj d2 hj hj2 hne
    have hs : Shallow fs 0 d2 := by
      rcases hd2 with h | h
      · rw [h]; exact ha pa hpa
      · rw [h]; exact hb pb hpb
    have := hs n st hlisted hst
    rw [hdir] at this
    cases this
  | succ k ih =>
    unfold merge_dirs
    apply merge_layers_total fs _ root [a, b] _ 0 [a, b] (by simp)
    intro j dj names hj hd n hn w0 w3
    apply merge_entry_total
    intro hdots hc r w1 w4
    have hlisted : Listed fs n :=
      ⟨dj, names, hd, hn, fun h => hdots (Or.inl h), fun h => hdots (Or.inr h)⟩
    obtain ⟨j2, d2, st, hj2, hne, hst, hdir⟩ := has_conflict_dir fs [a, b] n j hc
    obtain ⟨pa, pb, hpa, hpb, _⟩ := two_both_some a b j j2 dj d2 hj hj2 hne
    obtain ⟨f, rfl⟩ : ∃ f, fuel = f + 1 := ⟨fuel - 1, by omega⟩
    simp only [List.map_cons, List.map_nil]
    apply ih
    · intro p hp
      rw [hpa] at hp
      obtain ⟨hq, st1, hst1, hd1⟩ := get_subdir_inv fs pa n p hp
      rw [hq]
      exact ha pa hpa n st1 hlisted hst1 hd1
    · intro p hp
      rw [hpb] at hp
      obtain ⟨hq, st1, hst1, hd1⟩ := get_subdir_inv fs pb n p hp
      rw [hq]
      exact hb pb hpb n st1 hlisted hst1 hd1
    · omega


theorem fsTwoFiles_shallow (p : String) (hp : p = "/A" ∨ p = "/B") :
    Shallow fsTwoFiles 0 p := by
  intro n st _ h
  have key : ∀ q : String, fsTwoFiles.lstat q = some st → S_ISDIR st.st_mode = true →
      q = "/A" ∨ q = "/B" := by
    intro q hq hd
    simp only [fsTwoFiles, tableFS, List.find?, Option.map_eq_some'] at hq
    obtain ⟨r, hr, rfl⟩ := hq
    by_cases h1 : q = "/A"
    · exact Or.inl h1
    · by_cases h2 : q = "/B"
      · exact Or.inr h2
      · exfalso
        have e1 : ("/A" == q) = false := by simpa using fun h => h1 h.symm
        have e2 : ("/B" == q) = false := by simpa using fun h => h2 h.symm
        rw [e1, e2] at hr
        simp only [] at hr
        split at hr
        · cases hr; revert hd; decide
        · split at hr
          · cases hr; revert hd; decide
          · cases hr
  cases hd : S_ISDIR st.st_mode with
  | false => rfl
  | true =>
    exfalso
    have hq := key _ h hd
    rw [strconcat_some] at hq
    have hlen : (p ++ "/" ++ n).length ≥ 3 := by
      have l1 : ("/A" : String).length = 2 := by decide
      have l2 : ("/B" : String).length = 2 := by decide
      have l3 : ("/" : String).length = 1 := by decide
      rw [String.length_append, String.length_append]
      rcases hp with h | h <;> subst h <;> omega
    rcases hq with h | h
    · rw [h] at hlen; revert hlen; decide
    · rw [h] at hlen; revert hlen; decide


/-- C7 (amended): when both of two layers, in which directories nest at most
`k` deep, hold a regular file `y`, `merge_dirs` into a destination without `y`
ends in a fatal exit, for every recursion budget above `k`, and the destination
has no entry `y` at that moment. -/
theorem same_named_files_refused (fs : SrcFS) (k fuel : Nat) (root A B y : String)
    (names : List String) (sa sb : Stat) (w : World)
    (hA : fs.readdir A = some names) (hy : y ∈ names)
    (hdot : y ≠ ".") (hdotdot : y ≠ "..") (hp : '/' ∉ y.toList)
    (hsa : fs.lstat (strconcat (some A) (some "/") (some y)) = some sa)
    (hra : S_ISREG sa.st_mode = true)
    (hsb : fs.lstat (strconcat (some B) (some "/") (some y)) = some sb)
    (hrb : S_ISREG sb.st_mode = true)
    (hw : w.lstat (strconcat (some root) (some "/") (some y)) = none)
    (hSA : Shallow fs k A) (hSB : Shallow fs k B) (hk : k ≤ fuel) :
    ∃ msg w1, merge_dirs fs (fuel + 1) root [some A, some B] w = Res.fatal msg w1 ∧
      w1.lstat (strconcat (some root) (some "/") (some y)) = none := by
  obtain ⟨hno, hlst⟩ := same_named_files_never_ok fs fuel root A B y names sa sb w hA hy hdot
    hdotdot hp hsa hra hsb hrb hw
  cases hr : merge_dirs fs (fuel + 1) root [some A, some B] w with
  | ok a w1 => exact absurd hr (hno w1)
  | fatal msg w1 =>
    rw [hr] at hlst
    exact ⟨msg, w1, rfl, hlst⟩
  | nofuel w1 =>
    exact absurd hr (merge_two_total fs k (some A) (some B)
      (fun p hp => by cases hp; exact hSA) (fun p hp => by cases hp; exact hSB)
      fuel hk root w w1)

/-- Witness for `same_named_files_refused`: the layers `/A` and `/B` with one
regular file `y` each. -/
theorem same_named_files_refused_witness :
    ∃ msg w1, merge_dirs fsTwoFiles (4 + 1) "/m" [some "/A", some "/B"] World.empty
        = Res.fatal msg w1 ∧
      w1.lstat (strconcat (some "/m") (some "/") (some "y")) = none :=
  same_named_files_refused fsTwoFiles 0 4 "/m" "/A" "/B" "y" [".", "..", "y"] regStat
    ⟨0o100600, 0, 0⟩ World.empty (by decide) (by decide) (by decide) (by decide) (by decide)
    (by decide) (by decide) (by decide) (by decide) (by decide)
    (fsTwoFiles_shallow "/A" (Or.inl rfl)) (fsTwoFiles_shallow "/B" (Or.inr rfl)) (by decide)

/-! ## A `chmod` through a link -/

/-- The `chmod` that follows the new link `l` reaches the file bound at `a`:
the source file `/A/a` and the destination entry have the permission bits 0777
afterwards. -/
theorem chmod_reaches_bound_file :
    (merge_dirs fsDisjoint 5 "/m" [some "/A", some "/B"] World.empty).world.stat
        fsDisjoint "/m/a" = some ⟨0o100777, 1000, 1000⟩ ∧
    (merge_dirs fsDisjoint 5 "/m" [some "/A", some "/B"] World.empty).world.lstatSrc
        fsDisjoint "/A/a" = some ⟨0o100777, 1000, 1000⟩ := by
  decide

/-- The `chmod` that follows the new link `l` reaches the merged directory `d`,
which has the permission bits 0777 afterwards. -/
theorem chmod_reaches_merged_dir :
    (merge_dirs fsSharedLink 5 "/m" [some "/A", some "/B"] World.empty).world.stat
        fsSharedLink "/m/d" = some ⟨0o040777, 0, 0⟩ := by
  decide

end RunMerged
